import Mathlib

/-!
# The punt calls (`plugins/vpp/puntplugin/vppcalls/punt_vpcalls.go`)

Conventions of the embedding:

* The requests sent on the channel of the handler are recorded in a list, in order. A
  function that sends takes the list of requests sent so far and returns the new list
  together with the error it returns (`none` for `nil`).
* The channel is outside the repository: the error of `SendRequest(req).ReceiveReply(reply)`
  is the field `callsChannel` of the handler, a function of the requests sent before and of
  the request.
* A function that can panic returns an `Option`, `none` for the panic.
* The types of the packages `punt` (model) and `api_punt` (binary API) are declared outside
  the files at hand; they are given with the members and constants the code uses.
-/

namespace Vppcalls

/-- The enum `punt.L3Protocol` as the code tells its values apart: the constant
`L3Protocol_IPv4`, the constant `L3Protocol_IPv6`, and every other value. -/
inductive L3Protocol where
  | L3Protocol_IPv4
  | L3Protocol_IPv6
  | other (value : Int)
deriving DecidableEq, Repr, Inhabited

/-- The enum `punt.L4Protocol` as the code tells its values apart: the constants
`L4Protocol_TCP` and `L4Protocol_UDP`, and every other value. -/
inductive L4Protocol where
  | L4Protocol_TCP
  | L4Protocol_UDP
  | other (value : Int)
deriving DecidableEq, Repr, Inhabited

/-- The numeric values of the constants of `punt.L4Protocol` that `resolveL4Proto`
converts to `uint8`. -/
structure L4Values where
  L4Protocol_TCP : Int
  L4Protocol_UDP : Int
  L4Protocol_UNDEFINED_L4 : Int
deriving DecidableEq, Repr, Inhabited

/-- Go `punt.Punt`, the members the code reads; `Port` is a `uint32`. -/
structure Punt where
  L3Protocol : L3Protocol
  L4Protocol : L4Protocol
  Port : Nat
  SocketPath : String
deriving DecidableEq, Repr, Inhabited

/-- Go `api_punt.PuntSocketRegister`, the members the code sets; `Pathname` is a slice
of bytes. -/
structure PuntSocketRegister where
  HeaderVersion : Nat
  IsIP4 : Nat
  L4Protocol : Nat
  L4Port : Nat
  Pathname : List Nat
deriving DecidableEq, Repr, Inhabited

/-- Go `api_punt.PuntSocketDeregister`, the members the code sets. -/
structure PuntSocketDeregister where
  IsIP4 : Nat
  L4Protocol : Nat
  L4Port : Nat
deriving DecidableEq, Repr, Inhabited

/-- A request sent on the channel. -/
inductive Request where
  | register (req : PuntSocketRegister)
  | deregister (req : PuntSocketDeregister)
deriving DecidableEq, Repr, Inhabited

/-- Go `PuntVppHandler`: the channel answers a request, given the requests sent before
it, with an error or with none. -/
structure PuntVppHandler where
  callsChannel : List Request → Request → Option String

/-- Go `boolToUint`. -/
def boolToUint (input : Bool) : Nat :=
  if input then 1 else 0

/-- Go `resolveL4Proto`: the `uint8` of the constant matching the protocol. -/
def resolveL4Proto (K : L4Values) (protocol : L4Protocol) : Nat :=
  match protocol with
  | L4Protocol.L4Protocol_TCP => (K.L4Protocol_TCP % 256).toNat
  | L4Protocol.L4Protocol_UDP => (K.L4Protocol_UDP % 256).toNat
  | L4Protocol.other _ => (K.L4Protocol_UNDEFINED_L4 % 256).toNat

/-- Go conversion `[]byte(s)`: the bytes of the UTF-8 encoding of `s`. -/
def bytesOf (s : String) : List Nat :=
  s.data.flatMap (fun c => (String.utf8EncodeChar c).map UInt8.toNat)

/-- The loop `for i, c := range pathName` of `registerPuntWithSocket`, at index `i`:
`pathByte[i] = c` panics when `i` is not below the length of `pathByte`. -/
def copyPath : List Nat → Nat → List Nat → Option (List Nat)
  | [], _, pathByte => some pathByte
  | c :: rest, i, pathByte =>
    if i < pathByte.length then copyPath rest (i + 1) (pathByte.set i c) else none

/-- Go `registerPuntWithSocket`. -/
def registerPuntWithSocket (h : PuntVppHandler) (K : L4Values) (punt : Punt) (isIPv4 : Bool)
    (sent : List Request) : Option (List Request × Option String) :=
  let pathName := bytesOf punt.SocketPath
  match copyPath pathName 0 (List.replicate 108 0) with
  | none => none
  | some pathByte =>
    let req : PuntSocketRegister :=
      { HeaderVersion := 1
        IsIP4 := boolToUint isIPv4
        L4Protocol := resolveL4Proto K punt.L4Protocol
        L4Port := punt.Port % 65536
        Pathname := pathByte }
    some (sent ++ [Request.register req], h.callsChannel sent (Request.register req))

/-- Go `registerPuntWithSocketIPv4`. -/
def registerPuntWithSocketIPv4 (h : PuntVppHandler) (K : L4Values) (punt : Punt)
    (sent : List Request) : Option (List Request × Option String) :=
  registerPuntWithSocket h K punt true sent

/-- Go `registerPuntWithSocketIPv6`. -/
def registerPuntWithSocketIPv6 (h : PuntVppHandler) (K : L4Values) (punt : Punt)
    (sent : List Request) : Option (List Request × Option String) :=
  registerPuntWithSocket h K punt false sent

/-- Go `unregisterPuntWithSocket`. -/
def unregisterPuntWithSocket (h : PuntVppHandler) (K : L4Values) (punt : Punt)
    (isIPv4 : Bool) (sent : List Request) : Option (List Request × Option String) :=
  let req : PuntSocketDeregister :=
    { IsIP4 := boolToUint isIPv4
      L4Protocol := resolveL4Proto K punt.L4Protocol
      L4Port := punt.Port % 65536 }
  some (sent ++ [Request.deregister req], h.callsChannel sent (Request.deregister req))

/-- Go `unregisterPuntWithSocketIPv4`. -/
def unregisterPuntWithSocketIPv4 (h : PuntVppHandler) (K : L4Values) (punt : Punt)
    (sent : List Request) : Option (List Request × Option String) :=
  unregisterPuntWithSocket h K punt true sent

/-- Go `unregisterPuntWithSocketIPv6`. -/
def unregisterPuntWithSocketIPv6 (h : PuntVppHandler) (K : L4Values) (punt : Punt)
    (sent : List Request) : Option (List Request × Option String) :=
  unregisterPuntWithSocket h K punt false sent

/-- Go `RegisterPuntSocket`. -/
def RegisterPuntSocket (h : PuntVppHandler) (K : L4Values) (puntCfg : Punt)
    (sent : List Request) : Option (List Request × Option String) :=
  if puntCfg.L3Protocol = L3Protocol.L3Protocol_IPv4 then
    registerPuntWithSocketIPv4 h K puntCfg sent
  else if puntCfg.L3Protocol = L3Protocol.L3Protocol_IPv6 then
    registerPuntWithSocketIPv6 h K puntCfg sent
  else
    match registerPuntWithSocketIPv4 h K puntCfg sent with
    | none => none
    | some (sent, some err) => some (sent, some err)
    | some (sent, none) => registerPuntWithSocketIPv6 h K puntCfg sent

/-- Go `DeregisterPuntSocket`. -/
def DeregisterPuntSocket (h : PuntVppHandler) (K : L4Values) (puntCfg : Punt)
    (sent : List Request) : Option (List Request × Option String) :=
  if puntCfg.L3Protocol = L3Protocol.L3Protocol_IPv4 then
    registerPuntWithSocketIPv4 h K puntCfg sent
  else if puntCfg.L3Protocol = L3Protocol.L3Protocol_IPv6 then
    registerPuntWithSocketIPv6 h K puntCfg sent
  else
    match registerPuntWithSocketIPv4 h K puntCfg sent with
    | none => none
    | some (sent, some err) => some (sent, some err)
    | some (sent, none) => registerPuntWithSocketIPv6 h K puntCfg sent

/-- A handler for examples: the channel answers every request without error. -/
def sampleHandler : PuntVppHandler :=
  { callsChannel := fun _ _ => none }

/-- Values of the L4 constants for examples. -/
def sampleL4Values : L4Values :=
  { L4Protocol_TCP := 6, L4Protocol_UDP := 17, L4Protocol_UNDEFINED_L4 := 0 }

/-- A punt configuration for examples: IPv4, UDP port 9000, a short socket path. -/
def samplePunt : Punt :=
  { L3Protocol := L3Protocol.L3Protocol_IPv4, L4Protocol := L4Protocol.L4Protocol_UDP,
    Port := 9000, SocketPath := "/tmp/p" }

/-- The register request built for a configuration whose path bytes, copied into the
buffer, are `pathByte`. -/
def registerRequest (K : L4Values) (punt : Punt) (isIPv4 : Bool) (pathByte : List Nat) :
    Request :=
  Request.register
    { HeaderVersion := 1
      IsIP4 := boolToUint isIPv4
      L4Protocol := resolveL4Proto K punt.L4Protocol
      L4Port := punt.Port % 65536
      Pathname := pathByte }

/-- A punt configuration for examples whose socket path is 109 bytes long. -/
def longPathPunt : Punt :=
  { L3Protocol := L3Protocol.L3Protocol_IPv4, L4Protocol := L4Protocol.L4Protocol_UDP,
    Port := 9000, SocketPath := String.mk (List.replicate 109 'a') }

end Vppcalls

/-!
# The binary API binding generator (`cmd/binapi-generator/generate.go`)

A shallow embedding of the emitters of `generate.go` and proofs of properties of
the text they write.

Conventions of the embedding:

* Go strings are Lean `String`s (the schema text is assumed to be valid UTF-8, so a
  Go string and its sequence of code points determine each other).
* An emitter that writes into an `io.Writer` is a function returning the text it
  appends to the writer; a loop over a slice threads the text written so far.
* `generateField` returns the lines it writes, one list element per line.
* Indexing a slice out of range panics in Go; `generateField` therefore returns an
  `Option`, and so do the loops calling it.
* The loops over fields also record, in `calls`, the indices they pass to
  `generateField`; this trace does not influence the text.
* Functions and tables of the generator package that live in other files
  (`camelCaseName`, `convertToGoType`, `binapiTypes`, `getUnionSize`,
  `Service.MethodName`) and the `%q` verb of Go are parameters, collected in `Helpers`.
-/

namespace Generator

/-! ## Go library functions -/

/-- Go `strings.HasPrefix s p`. -/
def strings.HasPrefix (s p : String) : Bool :=
  p.data.isPrefixOf s.data

/-- Go `strings.TrimPrefix s p`: `s` without its leading `p` when `s` starts with `p`,
and `s` itself otherwise. -/
def strings.TrimPrefix (s p : String) : String :=
  if strings.HasPrefix s p then ⟨s.data.drop p.data.length⟩ else s

/-- Go `unicode.ToLower` on the code points whose lower case is an ASCII letter
(`A`-`Z`, U+0130 and U+212A). Every other upper-case letter has a lower case outside
ASCII in Go and is left unchanged here, which does not change the outcome of comparing a
lower-cased name with an ASCII name. -/
def unicode.ToLower (c : Char) : Char :=
  if 'A' ≤ c ∧ c ≤ 'Z' then Char.ofNat (c.toNat + 32)
  else if c.toNat = 0x130 then 'i'
  else if c.toNat = 0x212A then 'k'
  else c

/-- Go `strings.ToLower`: every code point mapped to lower case. -/
def strings.ToLower (s : String) : String :=
  ⟨s.data.map unicode.ToLower⟩

/-- Go `unicode.IsSpace`: the code points with the Unicode White_Space property. -/
def unicode.IsSpace (c : Char) : Bool :=
  let n := c.toNat
  (0x09 ≤ n && n ≤ 0x0D) || n == 0x20 || n == 0x85 || n == 0xA0 || n == 0x1680
    || (0x2000 ≤ n && n ≤ 0x200A) || n == 0x2028 || n == 0x2029 || n == 0x202F
    || n == 0x205F || n == 0x3000

/-- Go `strings.TrimSpace`: leading and trailing white space removed. -/
def strings.TrimSpace (s : String) : String :=
  ⟨((s.data.dropWhile unicode.IsSpace).reverse.dropWhile unicode.IsSpace).reverse⟩

/-- Scan of `strings.IndexFunc`: `k` is the byte offset of the first code point of `cs`. -/
def strings.IndexFuncFrom (f : Char → Bool) : List Char → Nat → Int
  | [], _ => -1
  | c :: cs, k => if f c then (k : Int) else strings.IndexFuncFrom f cs (k + c.utf8Size)

/-- Go `strings.IndexFunc s f`: byte offset of the first code point satisfying `f`,
or `-1`. -/
def strings.IndexFunc (s : String) (f : Char → Bool) : Int :=
  strings.IndexFuncFrom f s.data 0

/-- Scan of `strings.Index`: `k` is the byte offset of the first code point of `cs`. -/
def strings.IndexFrom (sub : List Char) : List Char → Nat → Int
  | [], k => if sub.isPrefixOf [] then (k : Int) else -1
  | c :: cs, k =>
    if sub.isPrefixOf (c :: cs) then (k : Int) else strings.IndexFrom sub cs (k + c.utf8Size)

/-- Go `strings.Index s sub`: byte offset of the first occurrence of `sub` in `s`,
or `-1`. -/
def strings.Index (s sub : String) : Int :=
  strings.IndexFrom sub.data s.data 0

/-- Code points of the Go slice `s[:n]` for a byte offset `n` that lies on a code point
boundary of `s`; `k` is the byte offset of the first code point of the list. -/
def sliceToFrom (n : Int) : List Char → Nat → List Char
  | [], _ => []
  | c :: cs, k => if (k : Int) < n then c :: sliceToFrom n cs (k + c.utf8Size) else []

/-- Go slice expression `s[:n]`. -/
def sliceTo (s : String) (n : Int) : String :=
  ⟨sliceToFrom n s.data 0⟩

/-- Lines that `bytes.Buffer.ReadString` with delimiter newline returns without error,
in order, each with its newline; `cur` holds the current line reversed. Data after
the last newline is returned together with an error, which ends the reading loop. -/
def readLines (cur : List Char) : List Char → List String
  | [] => []
  | c :: cs =>
    if c = '\n' then String.mk (c :: cur).reverse :: readLines [] cs
    else readLines (c :: cur) cs

/-! ## The parsed schema -/

/-- Go `Field`: a field of a type, union or message. `Type_` is the Go member `Type`;
`Length` is 0 when the field is not a fixed array; `SizeFrom` is empty when the field has
no size-of relation. -/
structure Field where
  Name : String
  Type_ : String
  Length : Int
  SizeFrom : String
deriving DecidableEq, Repr, Inhabited

/-- Modelled from the spec: `Field.IsArray`, declared in another file of the package.
A field is emitted as a sequence when it declares a fixed length greater than 0 or has a
size-of relation. -/
def Field.IsArray (f : Field) : Bool :=
  decide (f.Length > 0) || f.SizeFrom != ""

/-- Go `Service`: a request type name, a reply type name (empty when there is none) and
the streaming flag. -/
structure Service where
  RequestType : String
  ReplyType : String
  Stream : Bool
deriving DecidableEq, Repr, Inhabited

/-- Modelled from the spec: the Go type `EnumEntry`, declared in another file of the
package, with the value of an entry being its numeric code (printed in decimal by `%v`). -/
structure EnumEntry where
  Name : String
  Value : Int
deriving DecidableEq, Repr, Inhabited

/-- Go `Enum`. -/
structure Enum where
  Name : String
  Type_ : String
  Entries : List EnumEntry
deriving DecidableEq, Repr, Inhabited

/-- Go `Alias`. -/
structure Alias where
  Name : String
  Type_ : String
  Length : Int
deriving DecidableEq, Repr, Inhabited

/-- Go `Type`. -/
structure Type_ where
  Name : String
  CRC : String
  Fields : List Field
deriving DecidableEq, Repr, Inhabited

/-- Go `Union`. -/
structure Union where
  Name : String
  CRC : String
  Fields : List Field
deriving DecidableEq, Repr, Inhabited

/-- Go `Message`. -/
structure Message where
  Name : String
  CRC : String
  Fields : List Field
deriving DecidableEq, Repr, Inhabited

/-- Go `Package`. -/
structure Package where
  APIVersion : Int
  Services : List Service
  Enums : List Enum
  Aliases : List Alias
  Types : List Type_
  Unions : List Union
  Messages : List Message
deriving DecidableEq, Repr, Inhabited

/-- Go `context`: the data of one code generation task. -/
structure context where
  inputFile : String
  outputFile : String
  inputData : String
  moduleName : String
  packageName : String
  packageData : Package
deriving DecidableEq, Repr, Inhabited

/-- Go `MessageType` with its four constants. -/
inductive MessageType where
  | requestMessage
  | replyMessage
  | eventMessage
  | otherMessage
deriving DecidableEq, Repr, Inhabited

open MessageType

/-- Parts of the generator package declared outside `generate.go`, and the `%q` verb
(`strconv.Quote`) of the Go library. -/
structure Helpers where
  camelCaseName : String → String
  convertToGoType : context → String → String
  binapiTypes : String → Option String
  getUnionSize : context → Union → Int
  MethodName : Service → String
  quote : String → String

/-! ## generateComment -/

/-- Variables of the reading loop of `generateComment`, and the text written. -/
structure CommentLoop where
  objFound : Bool
  indent : Int
  trimIndent : String
  out : String
deriving DecidableEq, Repr, Inhabited

/-- The `for` loop of `generateComment` over the lines still to be read. -/
def generateCommentLoop (objTitle : String) (mapType : Bool) :
    List String → CommentLoop → String
  | [], st => st.out
  | line :: rest, st =>
    let noSpaceAt := strings.IndexFunc line (fun r => !unicode.IsSpace r)
    if !st.objFound then
      let indent := strings.Index line objTitle
      if indent = -1 then
        generateCommentLoop objTitle mapType rest { st with indent := indent }
      else
        let trimIndent := sliceTo line indent
        let found := decide (strings.TrimSpace line = objTitle)
        let out := if found then st.out ++ "//\n" else st.out
        generateCommentLoop objTitle mapType rest
          { objFound := found, indent := indent, trimIndent := trimIndent,
            out := out ++ "//\t" ++ strings.TrimPrefix line trimIndent }
    else if noSpaceAt < st.indent then
      st.out
    else if st.objFound && mapType && decide (noSpaceAt ≤ st.indent) then
      st.out ++ "//\t" ++ strings.TrimPrefix line st.trimIndent
    else
      generateCommentLoop objTitle mapType rest
        { st with out := st.out ++ "//\t" ++ strings.TrimPrefix line st.trimIndent }

/-- Go `generateComment`: the comment written for an object. -/
def generateComment (ctx : context) (goName vppName objKind : String) : String :=
  let title :=
    if objKind = "service" then "// " ++ goName ++ " represents VPP binary API services:\n"
    else "// " ++ goName ++ " represents VPP binary API " ++ objKind ++ " \x27" ++ vppName
      ++ "\x27:\n"
  let mapType := decide (objKind = "alias" ∨ objKind = "service")
  let objTitle :=
    if mapType then "\"" ++ vppName ++ "\": \x7b" else "\"" ++ vppName ++ "\","
  let body := generateCommentLoop objTitle mapType (readLines [] ctx.inputData.data)
    { objFound := false, indent := 0, trimIndent := "", out := "" }
  title ++ body ++ "//\n"

/-! ## Getters -/

/-- Go `generateMessageNameGetter`. -/
def generateMessageNameGetter (H : Helpers) (structName msgName : String) : String :=
  "func (*" ++ structName ++ ") GetMessageName() string \x7b\n\treturn " ++ H.quote msgName
    ++ "\n\x7d\n"

/-- Go `generateTypeNameGetter`. -/
def generateTypeNameGetter (H : Helpers) (structName msgName : String) : String :=
  "func (*" ++ structName ++ ") GetTypeName() string \x7b\n\treturn " ++ H.quote msgName
    ++ "\n\x7d\n"

/-- Go `generateCrcGetter`. -/
def generateCrcGetter (H : Helpers) (structName crc : String) : String :=
  let crc := strings.TrimPrefix crc "0x"
  "func (*" ++ structName ++ ") GetCrcString() string \x7b\n\treturn " ++ H.quote crc
    ++ "\n\x7d\n"

/-- Go `generateMessageTypeGetter`. -/
def generateMessageTypeGetter (structName : String) (msgType : MessageType) : String :=
  "func (*" ++ structName ++ ") GetMessageType() api.MessageType \x7b\n"
    ++ (if msgType = requestMessage then "\treturn api.RequestMessage\n"
        else if msgType = replyMessage then "\treturn api.ReplyMessage\n"
        else if msgType = eventMessage then "\treturn api.EventMessage\n"
        else "\treturn api.OtherMessage\n")
    ++ "\x7d\n"

/-! ## generateField -/

/-- The inner loop of `generateField` over all fields `f` of the entity: one
annotation for every `f` whose `SizeFrom` is the name of `field`. -/
def sizeofAnnotations (H : Helpers) (field : Field) : List Field → String → String
  | [], w => w
  | f :: rest, w =>
    if f.SizeFrom = field.Name then
      sizeofAnnotations H field rest
        (w ++ "\t\x60struc:\"sizeof=" ++ H.camelCaseName f.Name ++ "\"\x60")
    else sizeofAnnotations H field rest w

/-- Go `generateField`: the lines written for `fields[i]`, or `none` when `i` is out of
range. -/
def generateField (H : Helpers) (ctx : context) (fields : List Field) (i : Nat) :
    Option (List String) :=
  match fields[i]? with
  | none => none
  | some field =>
    let fieldName := H.camelCaseName (strings.TrimPrefix field.Name "_")
    let lenLine :=
      if field.Type_ = "string" then
        ["\tXXX_" ++ fieldName ++ "Len uint32 \x60struc:\"sizeof=" ++ fieldName ++ "\"\x60\n"]
      else []
    let dataType := H.convertToGoType ctx field.Type_
    let dataType := if field.IsArray && dataType == "uint8" then "byte" else dataType
    let fieldType := if field.IsArray then "[]" ++ dataType else dataType
    let w := "\t" ++ fieldName ++ " " ++ fieldType
    let w :=
      if field.Length > 0 then
        w ++ "\t\x60struc:\"[" ++ toString field.Length ++ "]" ++ dataType ++ "\"\x60"
      else sizeofAnnotations H field fields w
    some (lenLine ++ [w ++ "\n"])

/-! ## generateType -/

/-- The `switch` on the lower-cased field name that skips internal fields. -/
def isInternalField (name : String) : Bool :=
  let lower := strings.ToLower name
  lower == "crc" || lower == "_vl_msg_id"

/-- State of a loop over fields: the text written and the indices passed to
`generateField`. -/
structure FieldLoop where
  out : String
  calls : List Nat
deriving DecidableEq, Repr, Inhabited

/-- The loop of `generateType` over `typ.Fields`, at index `i` with `rest` still to
visit. -/
def generateTypeFields (H : Helpers) (ctx : context) (fields : List Field) :
    Nat → List Field → FieldLoop → Option FieldLoop
  | _, [], st => some st
  | i, field :: rest, st =>
    if isInternalField field.Name then generateTypeFields H ctx fields (i + 1) rest st
    else
      match generateField H ctx fields i with
      | none => none
      | some ls =>
        generateTypeFields H ctx fields (i + 1) rest
          { out := st.out ++ String.join ls, calls := st.calls ++ [i] }

/-- Go `generateType`. -/
def generateType (H : Helpers) (ctx : context) (typ : Type_) : Option String :=
  let name := H.camelCaseName typ.Name
  match generateTypeFields H ctx typ.Fields 0 typ.Fields { out := "", calls := [] } with
  | none => none
  | some st =>
    some (generateComment ctx name typ.Name "type"
      ++ "type " ++ name ++ " struct \x7b\n"
      ++ st.out
      ++ "\x7d\n"
      ++ generateTypeNameGetter H name typ.Name
      ++ generateCrcGetter H name typ.CRC
      ++ "\n")

/-! ## generateMessage -/

/-- Variables of the loop of `generateMessage`, the text written by the loop and the
indices passed to `generateField`. -/
structure MessageLoop where
  msgType : MessageType
  wasClientIndex : Bool
  n : Nat
  out : String
  calls : List Nat
deriving DecidableEq, Repr, Inhabited

/-- The first statement of the loop body of `generateMessage`: the update of `msgType`
and `wasClientIndex` at index `i`. -/
def updateMsgType (i : Nat) (field : Field) (st : MessageLoop) : MessageLoop :=
  if i = 1 then
    if field.Name = "client_index" then
      { st with msgType := eventMessage, wasClientIndex := true }
    else if field.Name = "context" then
      { st with msgType := replyMessage }
    else st
  else if i = 2 then
    if st.wasClientIndex && decide (field.Name = "context") then
      { st with msgType := requestMessage }
    else st
  else st

/-- The loop of `generateMessage` over `msg.Fields`, at index `i` with `rest` still to
visit. -/
def generateMessageFields (H : Helpers) (ctx : context) (fields : List Field) :
    Nat → List Field → MessageLoop → Option MessageLoop
  | _, [], st => some st
  | i, field :: rest, st =>
    let st := updateMsgType i field st
    let lower := strings.ToLower field.Name
    if lower = "crc" ∨ lower = "_vl_msg_id" then
      generateMessageFields H ctx fields (i + 1) rest st
    else if (lower = "client_index" ∨ lower = "context") ∧ st.n = 0 then
      generateMessageFields H ctx fields (i + 1) rest st
    else
      let n := st.n + 1
      let out := if n = 1 then st.out ++ "\n" else st.out
      match generateField H ctx fields i with
      | none => none
      | some ls =>
        generateMessageFields H ctx fields (i + 1) rest
          { st with n := n, out := out ++ String.join ls, calls := st.calls ++ [i] }

/-- The state in which the loop of `generateMessage` starts. -/
def MessageLoop.init : MessageLoop :=
  { msgType := otherMessage, wasClientIndex := false, n := 0, out := "", calls := [] }

/-- Go `generateMessage`. -/
def generateMessage (H : Helpers) (ctx : context) (msg : Message) : Option String :=
  let name := H.camelCaseName msg.Name
  match generateMessageFields H ctx msg.Fields 0 msg.Fields MessageLoop.init with
  | none => none
  | some st =>
    some (generateComment ctx name msg.Name "message"
      ++ "type " ++ name ++ " struct \x7b"
      ++ st.out
      ++ "\x7d\n"
      ++ generateMessageNameGetter H name msg.Name
      ++ generateCrcGetter H name msg.CRC
      ++ generateMessageTypeGetter name st.msgType)

/-! ## generateService -/

/-- Go `generateService`: the method line of one service entry. -/
def generateService (H : Helpers) (svc : Service) : String :=
  let reqTyp := H.camelCaseName svc.RequestType
  let method := H.MethodName svc
  let params := "*" ++ reqTyp
  let replyType := H.camelCaseName svc.ReplyType
  let returns :=
    if replyType ≠ "" then
      let repTyp := "*" ++ replyType
      let repTyp := if svc.Stream then "[]" ++ repTyp else repTyp
      "(" ++ repTyp ++ ", error)"
    else "error"
  "\t" ++ method ++ "(" ++ params ++ ") " ++ returns ++ "\n"

/-- The loop of `generateServices` over the services of the package. -/
def generateServiceLines (H : Helpers) : List Service → String → String
  | [], w => w
  | svc :: rest, w => generateServiceLines H rest (w ++ generateService H svc)

/-- Go `generateServices`; the loop ranges over `ctx.packageData.Services`. -/
def generateServices (H : Helpers) (ctx : context) (_services : List Service) : String :=
  generateServiceLines H ctx.packageData.Services
      (generateComment ctx "Services" "services" "service"
        ++ "type " ++ "Services" ++ " interface \x7b\n")
    ++ "\x7d\n"
    ++ "\n"

/-! ## generateEnum -/

/-- The loop of `generateEnum` over the entries: one constant line per entry. -/
def generateEnumEntries (name : String) : List EnumEntry → String → String
  | [], w => w
  | entry :: rest, w =>
    generateEnumEntries name rest
      (w ++ "\t" ++ entry.Name ++ " " ++ name ++ " = " ++ toString entry.Value ++ "\n")

/-- Go `generateEnum`. A name missing from the table `binapiTypes` reads as the empty
string. -/
def generateEnum (H : Helpers) (ctx : context) (enum : Enum) : String :=
  let name := H.camelCaseName enum.Name
  let typ := (H.binapiTypes enum.Type_).getD ""
  generateEnumEntries name enum.Entries
      (generateComment ctx name enum.Name "enum"
        ++ "type " ++ name ++ " " ++ typ ++ "\n"
        ++ "\n"
        ++ "const (\n")
    ++ ")\n"
    ++ "\n"

/-! ## generateUnion -/

/-- Go `generateUnionGetterSetter`: the setter and the getter of one union field. -/
def generateUnionGetterSetter (structName getterField getterStruct : String) : String :=
  "\nfunc (u *" ++ structName ++ ") Set" ++ getterField ++ "(a " ++ getterStruct ++ ") \x7b\n"
    ++ "\tvar b = new(bytes.Buffer)\n"
    ++ "\tif err := struc.Pack(b, &a); err != nil \x7b\n"
    ++ "\t\treturn\n"
    ++ "\t\x7d\n"
    ++ "\tcopy(u.Union_data[:], b.Bytes())\n"
    ++ "\x7d\n"
    ++ "func (u *" ++ structName ++ ") Get" ++ getterField ++ "() (a " ++ getterStruct
    ++ ") \x7b\n"
    ++ "\tvar b = bytes.NewReader(u.Union_data[:])\n"
    ++ "\tstruc.Unpack(b, &a)\n"
    ++ "\treturn\n"
    ++ "\x7d\n"

/-- The loop of `generateUnion` over the fields: the accessors of every field. -/
def generateUnionAccessors (H : Helpers) (ctx : context) (name : String) :
    List Field → String → String
  | [], w => w
  | field :: rest, w =>
    let fieldName := H.camelCaseName field.Name
    let fieldType := H.convertToGoType ctx field.Type_
    generateUnionAccessors H ctx name rest
      (w ++ generateUnionGetterSetter name fieldName fieldType)

/-- Go `generateUnion`. -/
def generateUnion (H : Helpers) (ctx : context) (union : Union) : String :=
  let name := H.camelCaseName union.Name
  let maxSize := H.getUnionSize ctx union
  let fieldName := "Union_data"
  generateUnionAccessors H ctx name union.Fields
      (generateComment ctx name union.Name "union"
        ++ "type " ++ name ++ " struct \x7b\n"
        ++ "\t" ++ fieldName ++ " [" ++ toString maxSize ++ "]byte\n"
        ++ "\x7d\n"
        ++ generateTypeNameGetter H name union.Name
        ++ generateCrcGetter H name union.CRC)
    ++ "\n"

/-! ## generateAlias -/

/-- Go `generateAlias`. -/
def generateAlias (H : Helpers) (ctx : context) (alias_ : Alias) : String :=
  let name := H.camelCaseName alias_.Name
  let w := generateComment ctx name alias_.Name "alias" ++ "type " ++ name ++ " "
  let w := if alias_.Length > 0 then w ++ "[" ++ toString alias_.Length ++ "]" else w
  let dataType := H.convertToGoType ctx alias_.Type_
  w ++ dataType ++ "\n" ++ "\n"

/-! ## generateHeader, generateImports -/

/-- The verb `%3d` of Go for a number that is not negative: decimal digits, padded on
the left with blanks to width 3. -/
def padLeft3 (n : Nat) : String :=
  String.mk (List.replicate (3 - (toString n).length) ' ') ++ toString n

/-- Go `strings.HasSuffix s suf`. -/
def strings.HasSuffix (s suf : String) : Bool :=
  suf.data.isSuffixOf s.data

/-- The closure `printObjNum` of `generateHeader`: the line counting the objects of one
kind, nothing for a count of 0. -/
def printObjNum (obj : String) (num : Nat) : String :=
  if num > 0 then
    let obj :=
      if num > 1 then
        if strings.HasSuffix obj "s" then obj ++ "es" else obj ++ "s"
      else obj
    "\t" ++ padLeft3 num ++ " " ++ obj ++ "\n"
  else ""

/-- Go `generateHeader`. -/
def generateHeader (ctx : context) : String :=
  "// Code generated by GoVPP binapi-generator. DO NOT EDIT.\n"
    ++ "//  source: " ++ ctx.inputFile ++ "\n"
    ++ "\n"
    ++ "/*\n"
    ++ " Package " ++ ctx.packageName ++ " is a generated from VPP binary API module \x27"
    ++ ctx.moduleName ++ "\x27.\n"
    ++ "\n"
    ++ " It contains following objects:\n"
    ++ printObjNum "message" ctx.packageData.Messages.length
    ++ printObjNum "type" ctx.packageData.Types.length
    ++ printObjNum "alias" ctx.packageData.Aliases.length
    ++ printObjNum "enum" ctx.packageData.Enums.length
    ++ printObjNum "union" ctx.packageData.Unions.length
    ++ printObjNum "service" ctx.packageData.Services.length
    ++ "\n"
    ++ "*/\n"
    ++ "package " ++ ctx.packageName ++ "\n"
    ++ "\n"

/-- Go constant `govppApiImportPath`. -/
def govppApiImportPath : String := "git.fd.io/govpp.git/api"

/-- Go constant `inputFileExt`. -/
def inputFileExt : String := ".api.json"

/-- Go constant `outputFileExt`. -/
def outputFileExt : String := ".ba.go"

/-- Go `generateImports`. -/
def generateImports (_ctx : context) : String :=
  "import \"" ++ govppApiImportPath ++ "\"\n"
    ++ "import \"" ++ "github.com/lunixbochs/struc" ++ "\"\n"
    ++ "import \"" ++ "bytes" ++ "\"\n"
    ++ "\n"
    ++ "// Reference imports to suppress errors if they are not otherwise used.\n"
    ++ "var _ = api.RegisterMessage\n"
    ++ "var _ = struc.Pack\n"
    ++ "var _ = bytes.NewBuffer\n"
    ++ "\n"

/-! ## generatePackage -/

/-- The loop of `generatePackage` over the enums. -/
def generateEnums (H : Helpers) (ctx : context) : List Enum → String → String
  | [], w => w
  | enum :: rest, w => generateEnums H ctx rest (w ++ generateEnum H ctx enum)

/-- The loop of `generatePackage` over the aliases. -/
def generateAliases (H : Helpers) (ctx : context) : List Alias → String → String
  | [], w => w
  | alias_ :: rest, w => generateAliases H ctx rest (w ++ generateAlias H ctx alias_)

/-- The loop of `generatePackage` over the types. -/
def generateTypes (H : Helpers) (ctx : context) : List Type_ → String → Option String
  | [], w => some w
  | typ :: rest, w =>
    match generateType H ctx typ with
    | none => none
    | some t => generateTypes H ctx rest (w ++ t)

/-- The loop of `generatePackage` over the unions. -/
def generateUnions (H : Helpers) (ctx : context) : List Union → String → String
  | [], w => w
  | union :: rest, w => generateUnions H ctx rest (w ++ generateUnion H ctx union)

/-- The loop of `generatePackage` over the messages. -/
def generateMessages (H : Helpers) (ctx : context) : List Message → String → Option String
  | [], w => some w
  | msg :: rest, w =>
    match generateMessage H ctx msg with
    | none => none
    | some t => generateMessages H ctx rest (w ++ t)

/-- The last loop of `generatePackage`: one registration line per message. -/
def generateRegistrations (H : Helpers) (ctx : context) : List Message → String → String
  | [], w => w
  | msg :: rest, w =>
    let name := H.camelCaseName msg.Name
    generateRegistrations H ctx rest
      (w ++ "\tapi.RegisterMessage((*" ++ name ++ ")(nil), \""
        ++ (ctx.moduleName ++ "." ++ name) ++ "\")\n")

/-- Go `generatePackage`: the text written into `w`, for the value `includeAPIVer` of the
command line flag of that name. The final `Flush` of the writer and its error are
input/output and are left out. -/
def generatePackage (H : Helpers) (includeAPIVer : Bool) (ctx : context) : Option String :=
  let w := generateHeader ctx ++ generateImports ctx
  let w :=
    if includeAPIVer then
      w ++ "// " ++ "VlAPIVersion" ++ " represents version of the binary API module.\n"
        ++ "const " ++ "VlAPIVersion" ++ " = " ++ toString ctx.packageData.APIVersion ++ "\n"
        ++ "\n"
    else w
  let w :=
    if ctx.packageData.Services.length > 0 then
      w ++ generateServices H ctx ctx.packageData.Services
    else w
  let w :=
    if ctx.packageData.Enums.length > 0 then
      generateEnums H ctx ctx.packageData.Enums (w ++ "/* Enums */\n\n")
    else w
  let w :=
    if ctx.packageData.Aliases.length > 0 then
      generateAliases H ctx ctx.packageData.Aliases (w ++ "/* Aliases */\n\n")
    else w
  let w :=
    if ctx.packageData.Types.length > 0 then
      generateTypes H ctx ctx.packageData.Types (w ++ "/* Types */\n\n")
    else some w
  match w with
  | none => none
  | some w =>
    let w :=
      if ctx.packageData.Unions.length > 0 then
        generateUnions H ctx ctx.packageData.Unions (w ++ "/* Unions */\n\n")
      else w
    let w :=
      if ctx.packageData.Messages.length > 0 then
        generateMessages H ctx ctx.packageData.Messages (w ++ "/* Messages */\n\n")
      else some w
    match w with
    | none => none
    | some w =>
      some (generateRegistrations H ctx ctx.packageData.Messages
          (w ++ "\n" ++ "func init() \x7b\n")
        ++ "\x7d\n")

/-! ## getContext -/

/-- Go `filepath.Base` for the separator `/`: the last element of the path, trailing
separators removed first; `.` for the empty path and `/` for a path of separators only. -/
def filepath.Base (path : String) : String :=
  if path = "" then "."
  else
    let stripped := (path.data.reverse.dropWhile (fun c => c == '/')).reverse
    let last := (stripped.reverse.takeWhile (fun c => c != '/')).reverse
    if last = [] then "/" else String.mk last

/-- Go `getContext`. The result is `none` when the slice expression
`inputFileName[:index]` panics, an error message when the file name is refused, and the
context otherwise; the context returned has no package data and no input data yet, which
is the empty package and the empty text here. `filepath.Join` of the Go library is the
parameter `filepathJoin`. -/
def getContext (H : Helpers) (filepathJoin : String → String → String)
    (inputFile outputDir : String) : Option (Except String context) :=
  if !strings.HasSuffix inputFile inputFileExt then
    some (Except.error ("invalid input file name: " ++ H.quote inputFile))
  else
    let inputFileName := filepath.Base inputFile
    let index := strings.Index inputFileName "."
    if index < 0 then none
    else
      let moduleName := sliceTo inputFileName index
      let packageName :=
        if moduleName = "interface" then "interfaces"
        else if moduleName = "map" then "maps"
        else moduleName
      let packageDir := filepathJoin outputDir packageName
      let outputFileName := packageName ++ outputFileExt
      some (Except.ok
        { inputFile := inputFile
          outputFile := filepathJoin packageDir outputFileName
          inputData := ""
          moduleName := moduleName
          packageName := packageName
          packageData :=
            { APIVersion := 0, Services := [], Enums := [], Aliases := [], Types := [],
              Unions := [], Messages := [] } })

/-! ## Claim-side definitions -/

/-- The decision table of the message role as the specification words it: from the
names of the fields at positions 1 and 2 (`none` for an absent field). -/
def roleOfNames (name1 name2 : Option String) : MessageType :=
  if name1 = some "client_index" then
    if name2 = some "context" then requestMessage else eventMessage
  else if name1 = some "context" then replyMessage
  else otherMessage

/-- Name of the field at position `i`, when there is one. -/
def nameAt (fields : List Field) (i : Nat) : Option String :=
  fields[i]?.map Field.Name

/-- Text of the lines `generateField` writes for `fields[i]`. -/
def fieldText (H : Helpers) (ctx : context) (fields : List Field) (i : Nat) : String :=
  String.join ((generateField H ctx fields i).getD [])

/-- The field at position `i` exists and is not skipped as internal: its lower-cased
name is neither `crc` nor `_vl_msg_id`. -/
def visibleAt (fields : List Field) (i : Nat) : Bool :=
  match fields[i]? with
  | some f => !isInternalField f.Name
  | none => false

/-- The exclusion as the claim words it: the name itself is `crc` or `_vl_msg_id`. -/
def namedInternal (f : Field) : Bool :=
  f.Name == "crc" || f.Name == "_vl_msg_id"

/-- A concrete choice of the helper functions for evaluating the emitters on examples:
names and types pass through unchanged, the type table is empty, a union has size 0 and
a string is quoted without escapes. -/
def sampleHelpers : Helpers :=
  { camelCaseName := fun s => s
    convertToGoType := fun _ t => t
    binapiTypes := fun _ => none
    getUnionSize := fun _ _ => 0
    MethodName := fun svc => svc.RequestType
    quote := fun s => "\"" ++ s ++ "\"" }

/-- An empty generation context for examples. -/
def sampleContext : context :=
  { inputFile := "", outputFile := "", inputData := "", moduleName := "", packageName := "",
    packageData :=
      { APIVersion := 0, Services := [], Enums := [], Aliases := [], Types := [],
        Unions := [], Messages := [] } }

/-- The emitted name of a field: leading underscore trimmed, then camel-cased. -/
def emittedName (H : Helpers) (f : Field) : String :=
  H.camelCaseName (strings.TrimPrefix f.Name "_")

/-- The element type of a field emitted as a sequence: `byte` when the declared type
maps to `uint8`, the mapped type otherwise. -/
def elementType (H : Helpers) (ctx : context) (f : Field) : String :=
  if H.convertToGoType ctx f.Type_ = "uint8" then "byte" else H.convertToGoType ctx f.Type_

/-- The type written for a field with no fixed length: a sequence when the field has a
size-of relation, the mapped type otherwise. -/
def unsizedFieldType (H : Helpers) (ctx : context) (f : Field) : String :=
  if f.SizeFrom ≠ "" then "[]" ++ elementType H ctx f else H.convertToGoType ctx f.Type_

/-- The `sizeof` annotation naming the emitted field `g`. -/
def sizeofTag (g : String) : String :=
  "\t\x60struc:\"sizeof=" ++ g ++ "\"\x60"

/-- The synthesized length line of a string field with emitted name `name`. -/
def lengthLine (name : String) : String :=
  "\tXXX_" ++ name ++ "Len uint32 \x60struc:\"sizeof=" ++ name ++ "\"\x60\n"

/-- What the line of a field holds after the emitted name: the type, and then the
fixed-size layout for a fixed length greater than 0, or else the `sizeof` annotations of
the fields naming it. -/
def fieldLineBody (H : Helpers) (ctx : context) (fields : List Field) (f : Field) : String :=
  if f.Length > 0 then
    "[]" ++ elementType H ctx f
      ++ "\t\x60struc:\"[" ++ toString f.Length ++ "]" ++ elementType H ctx f ++ "\"\x60"
  else
    unsizedFieldType H ctx f
      ++ String.join ((fields.filter (fun g => g.SizeFrom = f.Name)).map
          (fun g => sizeofTag (H.camelCaseName g.Name)))

/-- A field list for examples: a count, the sequence sized by it, a string and a fixed
array of bytes. -/
def sampleFields : List Field :=
  [ { Name := "count", Type_ := "u32", Length := 0, SizeFrom := "" },
    { Name := "items", Type_ := "u32", Length := 0, SizeFrom := "count" },
    { Name := "_tag", Type_ := "string", Length := 0, SizeFrom := "" },
    { Name := "mac", Type_ := "uint8", Length := 6, SizeFrom := "" } ]

/-- A section of the package text: nothing when there is no entity text, else the title
followed by the entity texts in order. -/
def sectionText (title : String) (texts : List String) : String :=
  if texts = [] then "" else title ++ String.join texts

/-- The optional constant with the API version. -/
def apiVersionText (includeAPIVer : Bool) (ctx : context) : String :=
  if includeAPIVer then
    "// VlAPIVersion represents version of the binary API module.\n"
      ++ "const VlAPIVersion = " ++ toString ctx.packageData.APIVersion ++ "\n" ++ "\n"
  else ""

/-- The services block: nothing when no service is declared, else the comment, the
interface opened, one method line per service in order, the interface closed and an empty
line. -/
def servicesBlock (H : Helpers) (ctx : context) : String :=
  if ctx.packageData.Services = [] then ""
  else
    generateComment ctx "Services" "services" "service"
      ++ "type Services interface \x7b\n"
      ++ String.join (ctx.packageData.Services.map (generateService H))
      ++ "\x7d\n" ++ "\n"

/-- The registration line of a message: the emitted identifier, as a nil pointer of that
type, and the string made of the module name, a dot and the emitted identifier. -/
def registrationLine (H : Helpers) (ctx : context) (msg : Message) : String :=
  "\tapi.RegisterMessage((*" ++ H.camelCaseName msg.Name ++ ")(nil), \""
    ++ ctx.moduleName ++ "." ++ H.camelCaseName msg.Name ++ "\")\n"

/-- The registration table: an empty line, `func init()` opened, the registration lines
of the messages in order, the function closed. -/
def registrationTable (H : Helpers) (ctx : context) : String :=
  "\n" ++ "func init() \x7b\n"
    ++ String.join (ctx.packageData.Messages.map (registrationLine H ctx))
    ++ "\x7d\n"

/-- Helper functions for an example with a camel-cased name: the message name
`show_version` is emitted as `ShowVersion`, as in the package `vpe`. -/
def camelHelpers : Helpers :=
  { sampleHelpers with
    camelCaseName := fun s => if s = "show_version" then "ShowVersion" else s }

/-- A context for the module `vpe` with the single message `show_version`. -/
def vpeContext : context :=
  { sampleContext with
    moduleName := "vpe"
    packageName := "vpe"
    packageData :=
      { sampleContext.packageData with
        Messages := [{ Name := "show_version", CRC := "0x1", Fields := [] }] } }

/-- Go `len(s)`: the number of bytes of the UTF-8 encoding of `s`. -/
def byteLen (cs : List Char) : Nat :=
  (cs.map Char.utf8Size).sum

/-- A string of printable ASCII characters, U+0020 to U+007E. -/
def printableASCII (s : String) : Prop :=
  ∀ c ∈ s.data, 0x20 ≤ c.toNat ∧ c.toNat < 0x7F

/-- Go `strconv.Quote`, the verb `%q`, on a string of printable ASCII characters: the
string between double quotes, with a backslash before each double quote and each
backslash of it. It stands for `%q` on such strings only; code points outside printable
ASCII are escaped by Go in further ways that are not described here. -/
def quotePrintableASCII (s : String) : String :=
  String.mk (Char.ofNat 34 ::
    (s.data.flatMap
        (fun c => if c = Char.ofNat 34 ∨ c = Char.ofNat 92 then [Char.ofNat 92, c] else [c])
      ++ [Char.ofNat 34]))

/-- The `%q` of the helper functions is the one of the Go library on every string of
printable ASCII characters. -/
def quotesLikeGo (H : Helpers) : Prop :=
  ∀ s, printableASCII s → H.quote s = quotePrintableASCII s

/-- The helper functions of the examples, with `%q` as the Go library defines it on
printable ASCII strings. -/
def goQuoteHelpers : Helpers :=
  { sampleHelpers with quote := quotePrintableASCII }

/-- A name that `%q` leaves as it is: printable ASCII characters only, none of them a
double quote or a backslash. -/
def plainName (s : String) : Prop :=
  ∀ c ∈ s.data, (0x20 ≤ c.toNat ∧ c.toNat < 0x7F) ∧ c ≠ Char.ofNat 34 ∧ c ≠ Char.ofNat 92

/-- A stand-in for `filepath.Join` in examples: the two elements with a separator. -/
def sampleJoin (a b : String) : String :=
  a ++ "/" ++ b

/-- The package name `getContext` derives from a module name. -/
def packageNameOf (moduleName : String) : String :=
  if moduleName = "interface" then "interfaces"
  else if moduleName = "map" then "maps"
  else moduleName

/-- A field list for examples: a string field whose size-of relation names a field that
is not in the list. -/
def danglingStringFields : List Field :=
  [{ Name := "data", Type_ := "string", Length := 0, SizeFrom := "missing" }]

/-- A field list for examples: a sequence whose size-of relation names a field that is
not in the list, after a plain field. -/
def danglingFields : List Field :=
  [ { Name := "flags", Type_ := "u32", Length := 0, SizeFrom := "" },
    { Name := "items", Type_ := "u32", Length := 0, SizeFrom := "missing" } ]

/-- Where a scan of a text stands within the current line: at its start, after a first
`/`, or further inside. -/
inductive LinePos where
  | start
  | slash
  | inside
deriving DecidableEq, Repr, Inhabited

/-- Scan of a text: every line, a line ending with its newline, starts with `//`, and
no text is left after the last newline. -/
def commentedFrom : LinePos → List Char → Bool
  | LinePos.start, [] => true
  | LinePos.start, c :: cs => c == '/' && commentedFrom LinePos.slash cs
  | LinePos.slash, [] => false
  | LinePos.slash, c :: cs => c == '/' && commentedFrom LinePos.inside cs
  | LinePos.inside, [] => false
  | LinePos.inside, c :: cs =>
    if c = '\n' then commentedFrom LinePos.start cs else commentedFrom LinePos.inside cs

/-- Every line of the text starts with `//` and the text ends with a newline. -/
def allLinesCommented (s : String) : Bool :=
  commentedFrom LinePos.start s.data

/-- One comment line: `//`, then text without a newline, then the newline. -/
def CommentLine (l : String) : Prop :=
  ∃ body : List Char, l.data = '/' :: '/' :: (body ++ ['\n']) ∧ '\n' ∉ body

/-- One line of the input: text without a newline, then the newline. -/
def InputLine (l : String) : Prop :=
  ∃ body : List Char, l.data = body ++ ['\n'] ∧ '\n' ∉ body

/-- The title that `generateComment` writes first. -/
def commentTitle (goName vppName objKind : String) : String :=
  if objKind = "service" then "// " ++ goName ++ " represents VPP binary API services:\n"
  else "// " ++ goName ++ " represents VPP binary API " ++ objKind ++ " \x27" ++ vppName
    ++ "\x27:\n"

/-- A schema text for examples: the definition of the type `foo` inside a list. -/
def sampleSchema : String :=
  "\x7b\n  \"types\": [\n    [\n      \"foo\",\n      [\"u32\", \"x\"]\n    ],\n  ]\n\x7d\n"

/-! ## Shared lemmas -/

theorem foldl_append_eq (l : List String) (acc : String) :
    l.foldl (fun r s => r ++ s) acc = acc ++ l.foldl (fun r s => r ++ s) "" := by
  induction l generalizing acc with
  | nil => simp
  | cons a l ih =>
    simp only [List.foldl_cons, String.empty_append]
    rw [ih (acc ++ a), ih a, String.append_assoc]

theorem join_cons (a : String) (l : List String) :
    String.join (a :: l) = a ++ String.join l := by
  unfold String.join
  simp only [List.foldl_cons, String.empty_append]
  exact foldl_append_eq l a

theorem join_nil : String.join [] = "" := rfl

theorem join_append (l₁ l₂ : List String) :
    String.join (l₁ ++ l₂) = String.join l₁ ++ String.join l₂ := by
  induction l₁ with
  | nil => simp [join_nil]
  | cons a l ih => simp [join_cons, ih, String.append_assoc]

theorem getElem?_middle (pre rest : List Field) (f : Field) :
    (pre ++ f :: rest)[pre.length]? = some f := by
  rw [List.getElem?_append_right (le_refl _)]
  simp

theorem generateField_isSome (H : Helpers) (ctx : context) (pre rest : List Field)
    (f : Field) : ∃ ls, generateField H ctx (pre ++ f :: rest) pre.length = some ls := by
  unfold generateField
  rw [getElem?_middle]
  exact ⟨_, rfl⟩

/-! ## The loop of generateMessage -/

theorem generateMessageFields_total (H : Helpers) (ctx : context) (fields : List Field) :
    ∀ (rest pre : List Field) (st : MessageLoop), fields = pre ++ rest →
      ∃ st', generateMessageFields H ctx fields pre.length rest st = some st' := by
  intro rest
  induction rest with
  | nil => intro pre st _; exact ⟨st, rfl⟩
  | cons f rest ih =>
    intro pre st hf
    have hnext : fields = (pre ++ [f]) ++ rest := by simp [hf]
    have hlen : (pre ++ [f]).length = pre.length + 1 := by simp
    obtain ⟨ls, hls⟩ := generateField_isSome H ctx pre rest f
    rw [← hf] at hls
    simp only [generateMessageFields]
    split
    · rw [← hlen]; exact ih _ _ hnext
    · split
      · rw [← hlen]; exact ih _ _ hnext
      · rw [hls]; simp only []
        rw [← hlen]; exact ih _ _ hnext

theorem generateMessageFields_step (H : Helpers) (ctx : context) (fields : List Field)
    (i : Nat) (f : Field) (rest : List Field) (st st' : MessageLoop)
    (h : generateMessageFields H ctx fields i (f :: rest) st = some st') :
    ∃ st2, st2.msgType = (updateMsgType i f st).msgType ∧
      st2.wasClientIndex = (updateMsgType i f st).wasClientIndex ∧
      generateMessageFields H ctx fields (i + 1) rest st2 = some st' := by
  simp only [generateMessageFields] at h
  split at h
  · exact ⟨_, rfl, rfl, h⟩
  · split at h
    · exact ⟨_, rfl, rfl, h⟩
    · split at h
      · exact absurd h (by simp)
      · exact ⟨_, by rfl, by rfl, h⟩

theorem updateMsgType_of_ge (i : Nat) (hi : 3 ≤ i) (f : Field) (st : MessageLoop) :
    updateMsgType i f st = st := by
  unfold updateMsgType
  have h1 : i ≠ 1 := by omega
  have h2 : i ≠ 2 := by omega
  simp [h1, h2]

theorem generateMessageFields_role_stable (H : Helpers) (ctx : context)
    (fields : List Field) :
    ∀ (rest : List Field) (i : Nat) (st st' : MessageLoop), 3 ≤ i →
      generateMessageFields H ctx fields i rest st = some st' →
      st'.msgType = st.msgType := by
  intro rest
  induction rest with
  | nil =>
    intro i st st' _ h
    simp only [generateMessageFields, Option.some.injEq] at h
    rw [← h]
  | cons f rest ih =>
    intro i st st' hi h
    obtain ⟨st2, hm, _, hrest⟩ := generateMessageFields_step H ctx fields i f rest st st' h
    rw [ih (i + 1) st2 st' (by omega) hrest, hm, updateMsgType_of_ge i hi]

theorem generateMessageFields_role (H : Helpers) (ctx : context) (fields : List Field)
    (st : MessageLoop)
    (h : generateMessageFields H ctx fields 0 fields MessageLoop.init = some st) :
    st.msgType = roleOfNames (nameAt fields 1) (nameAt fields 2) := by
  match fields, h with
  | [], h =>
    simp only [generateMessageFields, Option.some.injEq] at h
    rw [← h]; rfl
  | [a], h =>
    obtain ⟨s1, hm1, _, h1⟩ := generateMessageFields_step H ctx _ 0 a [] _ st h
    simp only [generateMessageFields, Option.some.injEq] at h1
    rw [← h1, hm1]; rfl
  | [a, b], h =>
    obtain ⟨s1, hm1, hw1, h1⟩ := generateMessageFields_step H ctx _ 0 a [b] _ st h
    obtain ⟨s2, hm2, _, h2⟩ := generateMessageFields_step H ctx _ 1 b [] _ st h1
    simp only [generateMessageFields, Option.some.injEq] at h2
    rw [← h2, hm2]
    simp only [updateMsgType, nameAt, roleOfNames] at *
    simp only [MessageLoop.init] at hm1 hw1
    by_cases hb : b.Name = "client_index"
    · simp [hb]
    · by_cases hb2 : b.Name = "context"
      · simp [hb2]
      · simp [hb, hb2, hm1]
  | a :: b :: c :: rest, h =>
    obtain ⟨s1, hm1, hw1, h1⟩ := generateMessageFields_step H ctx _ 0 a _ _ st h
    obtain ⟨s2, hm2, hw2, h2⟩ := generateMessageFields_step H ctx _ 1 b _ _ st h1
    obtain ⟨s3, hm3, _, h3⟩ := generateMessageFields_step H ctx _ 2 c _ _ st h2
    rw [generateMessageFields_role_stable H ctx _ rest 3 s3 st (by omega) h3, hm3]
    simp only [updateMsgType, nameAt, roleOfNames] at *
    simp only [MessageLoop.init] at hm1 hw1
    by_cases hb : b.Name = "client_index"
    · by_cases hc : c.Name = "context"
      · simp [hb, hc] at hm2 hw2 ⊢
        simp [hw2]
      · simp [hb, hc] at hm2 hw2 ⊢
        simp [hw2, hm2, hc]
    · by_cases hb2 : b.Name = "context"
      · simp [hb2] at hm2 hw2 ⊢
        simp [hw2, hw1, hm2]
      · simp [hb, hb2] at hm2 hw2 ⊢
        simp [hw2, hw1, hm2, hm1]

theorem roleOfNames_request (n1 n2 : Option String) :
    roleOfNames n1 n2 = requestMessage ↔ n1 = some "client_index" ∧ n2 = some "context" := by
  unfold roleOfNames
  split_ifs <;> simp_all

theorem roleOfNames_event (n1 n2 : Option String) :
    roleOfNames n1 n2 = eventMessage ↔ n1 = some "client_index" ∧ n2 ≠ some "context" := by
  unfold roleOfNames
  split_ifs <;> simp_all

theorem roleOfNames_reply (n1 n2 : Option String) :
    roleOfNames n1 n2 = replyMessage ↔ n1 = some "context" := by
  unfold roleOfNames
  split_ifs <;> simp_all

theorem roleOfNames_other (n1 n2 : Option String) :
    roleOfNames n1 n2 = otherMessage ↔ n1 ≠ some "client_index" ∧ n1 ≠ some "context" := by
  unfold roleOfNames
  split_ifs <;> simp_all

theorem nameAt_of_length_lt (fields : List Field) (i : Nat) (h : fields.length ≤ i) :
    nameAt fields i = none := by
  unfold nameAt
  rw [List.getElem?_eq_none h]
  rfl

/-! ## C1: the message role -/

/-- C1: for every message the loop of `generateMessage` ends, `generateMessage` passes
the `msgType` of the final loop state to `generateMessageTypeGetter`, and that role is
request iff field 1 is named `client_index` and field 2 exists and is named `context`;
event iff field 1 is named `client_index` and field 2 is absent or not named `context`;
reply iff field 1 is named `context`; other in every remaining case, in particular for
fewer than two fields. Two messages whose names at positions 1 and 2 agree get the
same role. -/
theorem generateMessage_role (H : Helpers) (ctx : context) (msg : Message) :
    ∃ st : MessageLoop,
      generateMessageFields H ctx msg.Fields 0 msg.Fields MessageLoop.init = some st ∧
      generateMessage H ctx msg = some
        (generateComment ctx (H.camelCaseName msg.Name) msg.Name "message"
          ++ "type " ++ H.camelCaseName msg.Name ++ " struct \x7b"
          ++ st.out
          ++ "\x7d\n"
          ++ generateMessageNameGetter H (H.camelCaseName msg.Name) msg.Name
          ++ generateCrcGetter H (H.camelCaseName msg.Name) msg.CRC
          ++ generateMessageTypeGetter (H.camelCaseName msg.Name) st.msgType) ∧
      (st.msgType = requestMessage ↔
        nameAt msg.Fields 1 = some "client_index" ∧ nameAt msg.Fields 2 = some "context") ∧
      (st.msgType = eventMessage ↔
        nameAt msg.Fields 1 = some "client_index" ∧ nameAt msg.Fields 2 ≠ some "context") ∧
      (st.msgType = replyMessage ↔ nameAt msg.Fields 1 = some "context") ∧
      (st.msgType = otherMessage ↔
        nameAt msg.Fields 1 ≠ some "client_index" ∧ nameAt msg.Fields 1 ≠ some "context") ∧
      (msg.Fields.length < 2 → st.msgType = otherMessage) ∧
      (∀ (H' : Helpers) (ctx' : context) (msg' : Message) (st' : MessageLoop),
        nameAt msg'.Fields 1 = nameAt msg.Fields 1 →
        nameAt msg'.Fields 2 = nameAt msg.Fields 2 →
        generateMessageFields H' ctx' msg'.Fields 0 msg'.Fields MessageLoop.init = some st' →
        st'.msgType = st.msgType) := by
  obtain ⟨st, hst⟩ :=
    generateMessageFields_total H ctx msg.Fields msg.Fields [] MessageLoop.init rfl
  simp only [List.length_nil] at hst
  have hrole := generateMessageFields_role H ctx msg.Fields st hst
  refine ⟨st, hst, ?_, ?_, ?_, ?_, ?_, ?_, ?_⟩
  · simp only [generateMessage, hst]
  · rw [hrole]; exact roleOfNames_request _ _
  · rw [hrole]; exact roleOfNames_event _ _
  · rw [hrole]; exact roleOfNames_reply _ _
  · rw [hrole]; exact roleOfNames_other _ _
  · intro hlen
    rw [hrole, roleOfNames_other, nameAt_of_length_lt _ 1 (by omega)]
    simp
  · intro H' ctx' msg' st' h1 h2 hst'
    rw [hrole, generateMessageFields_role H' ctx' msg'.Fields st' hst', h1, h2]

/-! ## C2: internal fields are skipped, order is kept -/

theorem visibleAt_middle (pre rest : List Field) (f : Field) :
    visibleAt (pre ++ f :: rest) pre.length = !isInternalField f.Name := by
  unfold visibleAt
  rw [getElem?_middle]

theorem generateTypeFields_spec (H : Helpers) (ctx : context) (fields : List Field) :
    ∀ (rest pre : List Field) (st : FieldLoop), fields = pre ++ rest →
      generateTypeFields H ctx fields pre.length rest st = some
        { out := st.out ++ String.join
            (((List.range' pre.length rest.length).filter (visibleAt fields)).map
              (fieldText H ctx fields)),
          calls := st.calls ++ (List.range' pre.length rest.length).filter (visibleAt fields) }
    := by
  intro rest
  induction rest with
  | nil => intro pre st _; simp [generateTypeFields, join_nil]
  | cons f rest ih =>
    intro pre st hf
    have hnext : fields = (pre ++ [f]) ++ rest := by simp [hf]
    have hlen : (pre ++ [f]).length = pre.length + 1 := by simp
    have hvis : visibleAt fields pre.length = !isInternalField f.Name := by
      rw [hf]; exact visibleAt_middle pre rest f
    obtain ⟨ls, hls⟩ := generateField_isSome H ctx pre rest f
    rw [← hf] at hls
    have htxt : fieldText H ctx fields pre.length = String.join ls := by
      simp [fieldText, hls]
    simp only [generateTypeFields, List.length_cons, List.range'_succ, List.filter_cons, hvis]
    cases hint : isInternalField f.Name with
    | true =>
      simp only [if_true, Bool.not_true, Bool.false_eq_true, if_false]
      rw [← hlen]; exact ih _ _ hnext
    | false =>
      simp only [Bool.false_eq_true, if_false, Bool.not_false, if_true, hls]
      rw [← hlen, ih _ _ hnext]
      simp [join_cons, htxt, String.append_assoc, hlen]

theorem filterMap_visible (fields : List Field) :
    ∀ (rest pre : List Field), fields = pre ++ rest →
      ((List.range' pre.length rest.length).filter (visibleAt fields)).filterMap
          (fun i => fields[i]?)
        = rest.filter (fun f => !isInternalField f.Name) := by
  intro rest
  induction rest with
  | nil => intro pre _; simp
  | cons f rest ih =>
    intro pre hf
    have hnext : fields = (pre ++ [f]) ++ rest := by simp [hf]
    have hlen : (pre ++ [f]).length = pre.length + 1 := by simp
    have hvis : visibleAt fields pre.length = !isInternalField f.Name := by
      rw [hf]; exact visibleAt_middle pre rest f
    have hget : fields[pre.length]? = some f := by rw [hf]; exact getElem?_middle pre rest f
    have ih' := ih _ hnext
    rw [hlen] at ih'
    simp only [List.length_cons, List.range'_succ, List.filter_cons, hvis]
    cases hint : isInternalField f.Name with
    | true => simpa using ih'
    | false => simp [hget, ih']

theorem generateMessageFields_spec (H : Helpers) (ctx : context) (fields : List Field) :
    ∀ (rest pre : List Field) (st st' : MessageLoop), fields = pre ++ rest →
      generateMessageFields H ctx fields pre.length rest st = some st' →
      ∃ idx : List Nat,
        st'.calls = st.calls ++ idx ∧
        idx.Sublist (List.range' pre.length rest.length) ∧
        (∀ i ∈ idx, visibleAt fields i = true) ∧
        st'.n = st.n + idx.length ∧
        st'.out = st.out ++ (if st.n = 0 ∧ idx ≠ [] then "\n" else "")
          ++ String.join (idx.map (fieldText H ctx fields)) := by
  intro rest
  induction rest with
  | nil =>
    intro pre st st' _ h
    simp only [generateMessageFields, Option.some.injEq] at h
    subst h
    exact ⟨[], by simp, by simp, by simp, by simp, by simp [join_nil]⟩
  | cons f rest ih =>
    intro pre st st' hf h
    have hnext : fields = (pre ++ [f]) ++ rest := by simp [hf]
    have hlen : (pre ++ [f]).length = pre.length + 1 := by simp
    have hvis : visibleAt fields pre.length = !isInternalField f.Name := by
      rw [hf]; exact visibleAt_middle pre rest f
    obtain ⟨ls, hls⟩ := generateField_isSome H ctx pre rest f
    rw [← hf] at hls
    have htxt : fieldText H ctx fields pre.length = String.join ls := by
      simp [fieldText, hls]
    have hsub : ∀ idx : List Nat, idx.Sublist (List.range' (pre.length + 1) rest.length) →
        idx.Sublist (List.range' pre.length (f :: rest).length) := by
      intro idx hs
      rw [List.length_cons, List.range'_succ]
      exact List.Sublist.cons _ hs
    have hupd_n : (updateMsgType pre.length f st).n = st.n := by
      unfold updateMsgType; split_ifs <;> rfl
    have hupd_out : (updateMsgType pre.length f st).out = st.out := by
      unfold updateMsgType; split_ifs <;> rfl
    have hupd_calls : (updateMsgType pre.length f st).calls = st.calls := by
      unfold updateMsgType; split_ifs <;> rfl
    simp only [generateMessageFields] at h
    split at h
    · rw [← hlen] at h
      obtain ⟨idx, h1, h2, h3, h4, h5⟩ := ih _ _ _ hnext h
      rw [hlen] at h2
      exact ⟨idx, by rw [h1, hupd_calls], hsub idx h2, h3, by rw [h4, hupd_n],
        by rw [h5, hupd_out, hupd_n]⟩
    · split at h
      · rw [← hlen] at h
        obtain ⟨idx, h1, h2, h3, h4, h5⟩ := ih _ _ _ hnext h
        rw [hlen] at h2
        exact ⟨idx, by rw [h1, hupd_calls], hsub idx h2, h3, by rw [h4, hupd_n],
          by rw [h5, hupd_out, hupd_n]⟩
      · rename_i hskip _
        rw [hls] at h
        simp only [] at h
        rw [← hlen] at h
        obtain ⟨idx, h1, h2, h3, h4, h5⟩ := ih _ _ _ hnext h
        rw [hlen] at h2
        simp only [hupd_calls, hupd_n, hupd_out] at h1 h4 h5
        refine ⟨pre.length :: idx, by simp [h1], ?_, ?_, by simp [h4]; omega, ?_⟩
        · rw [List.length_cons, List.range'_succ]
          exact List.Sublist.cons₂ _ h2
        · intro i hi
          rcases List.mem_cons.mp hi with rfl | hi
          · rw [hvis]
            have : isInternalField f.Name = false := by
              unfold isInternalField
              simp only [not_or] at hskip
              simp [hskip.1, hskip.2]
            simp [this]
          · exact h3 i hi
        · rw [h5]
          have hne : ¬ (st.n + 1 = 0 ∧ idx ≠ []) := by omega
          simp only [hne, if_false, List.map_cons, join_cons, htxt, String.append_empty]
          by_cases hn : st.n = 0
          · simp [hn, String.append_assoc]
          · simp [hn, String.append_assoc]

theorem visibleAt_names (fields : List Field) (i : Nat) (h : visibleAt fields i = true) :
    ∃ f, fields[i]? = some f ∧ isInternalField f.Name = false ∧
      f.Name ≠ "crc" ∧ f.Name ≠ "_vl_msg_id" := by
  unfold visibleAt at h
  split at h
  · rename_i f hf
    refine ⟨f, hf, by simpa using h, ?_, ?_⟩
    · intro hn
      rw [hn] at h
      exact absurd h (by decide)
    · intro hn
      rw [hn] at h
      exact absurd h (by decide)
  · exact absurd h (by simp)

/-- C2 as stated fails: a type whose only field is named `CRC` gets no field line (the
loop of `generateType` writes nothing and calls `generateField` for no index), although
that field is named neither `crc` nor `_vl_msg_id` and so remains when the fields with
those two names are removed. -/
theorem generateType_skips_upper_case_CRC :
    generateTypeFields sampleHelpers sampleContext
        [{ Name := "CRC", Type_ := "u32", Length := 0, SizeFrom := "" }] 0
        [{ Name := "CRC", Type_ := "u32", Length := 0, SizeFrom := "" }]
        { out := "", calls := [] }
      = some { out := "", calls := [] } ∧
    [({ Name := "CRC", Type_ := "u32", Length := 0, SizeFrom := "" } : Field)].filter
        (fun f => !namedInternal f)
      = [{ Name := "CRC", Type_ := "u32", Length := 0, SizeFrom := "" }] := by
  decide

/-- C2 (amended): the exclusion is by lower-cased name. For every field list, the loop
of `generateType` ends and calls `generateField` exactly for the positions whose
lower-cased name is neither `crc` nor `_vl_msg_id`, in increasing order, so the emitted
fields are exactly the declared fields without those; the loop of `generateMessage` ends
and calls `generateField` for positions in increasing order, none of which holds a field
whose name, lower-cased or as written, is `crc` or `_vl_msg_id`. In both loops the text
written is the text of the called positions, in that order. -/
theorem internal_fields_skipped (H : Helpers) (ctx : context) (fields : List Field) :
    (∃ st : FieldLoop,
      generateTypeFields H ctx fields 0 fields { out := "", calls := [] } = some st ∧
      st.calls = (List.range fields.length).filter (visibleAt fields) ∧
      st.calls.filterMap (fun i => fields[i]?)
        = fields.filter (fun f => !isInternalField f.Name) ∧
      (∀ i ∈ st.calls, ∃ f, fields[i]? = some f ∧ isInternalField f.Name = false ∧
        f.Name ≠ "crc" ∧ f.Name ≠ "_vl_msg_id") ∧
      st.out = String.join (st.calls.map (fieldText H ctx fields))) ∧
    (∃ st : MessageLoop,
      generateMessageFields H ctx fields 0 fields MessageLoop.init = some st ∧
      st.calls.Sublist (List.range fields.length) ∧
      (∀ i ∈ st.calls, ∃ f, fields[i]? = some f ∧ isInternalField f.Name = false ∧
        f.Name ≠ "crc" ∧ f.Name ≠ "_vl_msg_id") ∧
      st.out = (if st.calls = [] then "" else "\n")
        ++ String.join (st.calls.map (fieldText H ctx fields))) := by
  constructor
  · have h := generateTypeFields_spec H ctx fields fields [] { out := "", calls := [] } rfl
    have hf := filterMap_visible fields fields [] rfl
    simp only [List.length_nil, String.empty_append, List.nil_append] at h hf
    rw [← List.range_eq_range'] at h hf
    refine ⟨_, h, rfl, hf, ?_, rfl⟩
    intro i hi
    exact visibleAt_names fields i (List.mem_filter.mp hi).2
  · obtain ⟨st, hst⟩ :=
      generateMessageFields_total H ctx fields fields [] MessageLoop.init rfl
    obtain ⟨idx, h1, h2, h3, _, h5⟩ :=
      generateMessageFields_spec H ctx fields fields [] MessageLoop.init st rfl hst
    simp only [List.length_nil] at hst h2
    rw [← List.range_eq_range'] at h2
    have hc : st.calls = idx := by simpa [MessageLoop.init] using h1
    refine ⟨st, hst, by rw [hc]; exact h2, ?_, ?_⟩
    · intro i hi
      rw [hc] at hi
      exact visibleAt_names fields i (h3 i hi)
    · rw [h5, hc]
      by_cases hidx : idx = []
      · simp [hidx, MessageLoop.init]
      · simp [hidx, MessageLoop.init]

/-! ## C3, C4, C5: the lines of generateField -/

theorem sizeofAnnotations_eq (H : Helpers) (field : Field) :
    ∀ (l : List Field) (w : String),
      sizeofAnnotations H field l w = w ++ String.join
        ((l.filter (fun g => g.SizeFrom = field.Name)).map
          (fun g => sizeofTag (H.camelCaseName g.Name))) := by
  intro l
  induction l with
  | nil => intro w; simp [sizeofAnnotations, join_nil]
  | cons g l ih =>
    intro w
    simp only [sizeofAnnotations, List.filter_cons]
    by_cases hg : g.SizeFrom = field.Name
    · simp [hg, ih, join_cons, sizeofTag, String.append_assoc]
    · simp [hg, ih]

theorem filter_eq_nil_of_unnamed (fields : List Field) (f : Field)
    (h : ∀ g ∈ fields, g.SizeFrom ≠ f.Name) :
    fields.filter (fun g => g.SizeFrom = f.Name) = [] := by
  rw [List.filter_eq_nil_iff]
  intro g hg
  simpa using h g hg

theorem generateField_eq (H : Helpers) (ctx : context) (fields : List Field) (i : Nat)
    (f : Field) (hf : fields[i]? = some f) :
    generateField H ctx fields i = some
      ((if f.Type_ = "string" then [lengthLine (emittedName H f)] else []) ++
        ["\t" ++ emittedName H f ++ " " ++ fieldLineBody H ctx fields f ++ "\n"]) := by
  by_cases hlen : f.Length > 0
  · simp only [generateField, hf, hlen, if_true, Field.IsArray, decide_True, Bool.true_or,
      emittedName, lengthLine, fieldLineBody, elementType, Bool.true_and, beq_iff_eq]
    by_cases hu : H.convertToGoType ctx f.Type_ = "uint8"
    · simp [hu, String.append_assoc]
      apply String.ext
      simp
    · simp [hu, String.append_assoc]
  · simp only [generateField, hf, hlen, if_false, sizeofAnnotations_eq, Field.IsArray,
      decide_False, Bool.false_or, emittedName, lengthLine, fieldLineBody, unsizedFieldType,
      elementType]
    by_cases hs : f.SizeFrom = "" <;> by_cases hu : H.convertToGoType ctx f.Type_ = "uint8"
      <;> simp [hs, hu, String.append_assoc]
      <;> (apply String.ext; simp)

/-- C3: for a field `f` of the list with no fixed length, `generateField` succeeds and
the last line it writes is the line of `f` itself: tab, emitted name, type, then one
`sizeof=<G>` annotation for every field `g` of the list with `g.SizeFrom = f.Name`, `G`
being the camel-cased name of `g`, in list order, and nothing else; when no field of the
list names `f` the line carries no annotation. -/
theorem size_field_line (H : Helpers) (ctx : context) (fields : List Field) (i : Nat)
    (f : Field) (hf : fields[i]? = some f) (hlen : f.Length = 0) :
    ∃ own : String,
      generateField H ctx fields i = some
        ((if f.Type_ = "string" then [lengthLine (emittedName H f)] else []) ++ [own]) ∧
      own = "\t" ++ emittedName H f ++ " " ++ unsizedFieldType H ctx f
        ++ String.join ((fields.filter (fun g => g.SizeFrom = f.Name)).map
            (fun g => sizeofTag (H.camelCaseName g.Name)))
        ++ "\n" ∧
      ((∀ g ∈ fields, g.SizeFrom ≠ f.Name) →
        own = "\t" ++ emittedName H f ++ " " ++ unsizedFieldType H ctx f ++ "\n") := by
  have hbody : fieldLineBody H ctx fields f = unsizedFieldType H ctx f
      ++ String.join ((fields.filter (fun g => g.SizeFrom = f.Name)).map
          (fun g => sizeofTag (H.camelCaseName g.Name))) := by
    simp [fieldLineBody, hlen]
  refine ⟨_, generateField_eq H ctx fields i f hf, ?_, ?_⟩
  · rw [hbody]; simp only [String.append_assoc]
  · intro hno
    rw [hbody, filter_eq_nil_of_unnamed fields f hno]
    simp [join_nil]

/-- Witness of C3 on the sample field list: the count field, named by the sequence
`items`, keeps its own line and carries the annotation `sizeof=items`. -/
theorem size_field_line_witness :
    generateField sampleHelpers sampleContext sampleFields 0
      = some ["\tcount u32\t\x60struc:\"sizeof=items\"\x60\n"] := by
  obtain ⟨own, h1, h2, _⟩ := size_field_line sampleHelpers sampleContext sampleFields 0
    { Name := "count", Type_ := "u32", Length := 0, SizeFrom := "" } (by decide) (by decide)
  rw [h1, h2]
  decide

/-- C4: for the field `f` at position `i`, `generateField` succeeds and writes the line
of `f` (tab, emitted name, blank, then the type and annotations, newline) as its last
line; when the declared type is exactly `string` it writes exactly one more line, just
before it, declaring `XXX_<Name>Len uint32` annotated `sizeof=<Name>` with `<Name>` the
emitted name; otherwise it writes that one line only. Two lines are written iff the type
is `string`. -/
theorem string_length_line (H : Helpers) (ctx : context) (fields : List Field) (i : Nat)
    (f : Field) (hf : fields[i]? = some f) :
    ∃ ls : List String,
      generateField H ctx fields i = some ls ∧
      (f.Type_ = "string" →
        ls = ["\tXXX_" ++ emittedName H f ++ "Len uint32 \x60struc:\"sizeof="
                ++ emittedName H f ++ "\"\x60\n",
              "\t" ++ emittedName H f ++ " " ++ fieldLineBody H ctx fields f ++ "\n"]) ∧
      (f.Type_ ≠ "string" →
        ls = ["\t" ++ emittedName H f ++ " " ++ fieldLineBody H ctx fields f ++ "\n"]) ∧
      (ls.length = 2 ↔ f.Type_ = "string") ∧
      (ls.length = 1 ↔ f.Type_ ≠ "string") := by
  refine ⟨_, generateField_eq H ctx fields i f hf, ?_, ?_, ?_, ?_⟩
  · intro hs; simp [hs, lengthLine, String.append_assoc]
  · intro hs; simp [hs]
  · by_cases hs : f.Type_ = "string" <;> simp [hs]
  · by_cases hs : f.Type_ = "string" <;> simp [hs]

/-- Witness of C4 on the sample field list: the string field `_tag` gets the length
line `XXX_tagLen` right before its own line. -/
theorem string_length_line_witness :
    generateField sampleHelpers sampleContext sampleFields 2
      = some ["\tXXX_tagLen uint32 \x60struc:\"sizeof=tag\"\x60\n", "\ttag string\n"] := by
  obtain ⟨ls, h1, h2, _⟩ := string_length_line sampleHelpers sampleContext sampleFields 2
    { Name := "_tag", Type_ := "string", Length := 0, SizeFrom := "" } (by decide)
  rw [h1, h2 (by decide)]
  decide

/-- C5: a field `f` with a fixed length greater than 0 is written as the sequence
`[]T` annotated with the fixed-size layout `[L]T`, where `L` is the length and `T` is
`byte` when the declared type maps to `uint8` and the mapped type otherwise; the line
holds nothing else, whatever the other fields of the list declare. -/
theorem fixed_array_line (H : Helpers) (ctx : context) (fields : List Field) (i : Nat)
    (f : Field) (hf : fields[i]? = some f) (hlen : 0 < f.Length) :
    generateField H ctx fields i = some
      ((if f.Type_ = "string" then [lengthLine (emittedName H f)] else []) ++
        ["\t" ++ emittedName H f ++ " " ++ "[]"
          ++ (if H.convertToGoType ctx f.Type_ = "uint8" then "byte"
              else H.convertToGoType ctx f.Type_)
          ++ "\t\x60struc:\"[" ++ toString f.Length ++ "]"
          ++ (if H.convertToGoType ctx f.Type_ = "uint8" then "byte"
              else H.convertToGoType ctx f.Type_)
          ++ "\"\x60" ++ "\n"]) := by
  rw [generateField_eq H ctx fields i f hf]
  simp only [fieldLineBody, gt_iff_lt, hlen, if_true, elementType, String.append_assoc]

/-- Witness of C5 on the sample field list: the 6-byte array `mac`. -/
theorem fixed_array_line_witness :
    generateField sampleHelpers sampleContext sampleFields 3
      = some ["\tmac []byte\t\x60struc:\"[6]byte\"\x60\n"] := by
  rw [fixed_array_line sampleHelpers sampleContext sampleFields 3
    { Name := "mac", Type_ := "uint8", Length := 6, SizeFrom := "" } (by decide) (by decide)]
  decide

/-! ## C6: the method line of a service -/

/-- C6: `generateService` writes one method line: tab, method name, the single argument
`*Req`, and the result, by cases. The reply name the code tests is the camel-cased reply
type. When that name is empty (no reply type), the result is only `error`, streaming or
not; when it is not empty and the exchange does not stream, the result is
`(*Reply, error)`; when it is not empty and the exchange streams, the result is
`([]*Reply, error)`. When camel-casing maps exactly the empty name to the empty name, the
reply name is empty exactly when no reply type is declared, and the same three cases hold
in terms of the declared reply type. -/
theorem service_method_line (H : Helpers) (svc : Service) :
    generateService H svc
      = "\t" ++ H.MethodName svc ++ "(" ++ "*" ++ H.camelCaseName svc.RequestType ++ ") "
        ++ (if H.camelCaseName svc.ReplyType = "" then "error"
            else if svc.Stream then "([]*" ++ H.camelCaseName svc.ReplyType ++ ", error)"
            else "(*" ++ H.camelCaseName svc.ReplyType ++ ", error)")
        ++ "\n" ∧
    (H.camelCaseName svc.ReplyType = "" → generateService H svc
      = "\t" ++ H.MethodName svc ++ "(*" ++ H.camelCaseName svc.RequestType ++ ") error\n") ∧
    (H.camelCaseName svc.ReplyType ≠ "" → svc.Stream = false → generateService H svc
      = "\t" ++ H.MethodName svc ++ "(*" ++ H.camelCaseName svc.RequestType ++ ") (*"
        ++ H.camelCaseName svc.ReplyType ++ ", error)\n") ∧
    (H.camelCaseName svc.ReplyType ≠ "" → svc.Stream = true → generateService H svc
      = "\t" ++ H.MethodName svc ++ "(*" ++ H.camelCaseName svc.RequestType ++ ") ([]*"
        ++ H.camelCaseName svc.ReplyType ++ ", error)\n") ∧
    ((∀ s, H.camelCaseName s = "" ↔ s = "") →
      (svc.ReplyType = "" → generateService H svc
        = "\t" ++ H.MethodName svc ++ "(*" ++ H.camelCaseName svc.RequestType ++ ") error\n") ∧
      (svc.ReplyType ≠ "" → svc.Stream = false → generateService H svc
        = "\t" ++ H.MethodName svc ++ "(*" ++ H.camelCaseName svc.RequestType ++ ") (*"
          ++ H.camelCaseName svc.ReplyType ++ ", error)\n") ∧
      (svc.ReplyType ≠ "" → svc.Stream = true → generateService H svc
        = "\t" ++ H.MethodName svc ++ "(*" ++ H.camelCaseName svc.RequestType ++ ") ([]*"
          ++ H.camelCaseName svc.ReplyType ++ ", error)\n")) := by
  have key : generateService H svc
      = "\t" ++ H.MethodName svc ++ "(" ++ "*" ++ H.camelCaseName svc.RequestType ++ ") "
        ++ (if H.camelCaseName svc.ReplyType = "" then "error"
            else if svc.Stream then "([]*" ++ H.camelCaseName svc.ReplyType ++ ", error)"
            else "(*" ++ H.camelCaseName svc.ReplyType ++ ", error)")
        ++ "\n" := by
    apply String.ext
    by_cases hr : H.camelCaseName svc.ReplyType = ""
    · simp [generateService, hr]
    · cases hstream : svc.Stream
      · simp [generateService, hr, hstream]
      · simp [generateService, hr, hstream]
  have hnone : H.camelCaseName svc.ReplyType = "" → generateService H svc
      = "\t" ++ H.MethodName svc ++ "(*" ++ H.camelCaseName svc.RequestType ++ ") error\n" := by
    intro hr
    rw [key, if_pos hr]
    apply String.ext
    simp
  have hone : H.camelCaseName svc.ReplyType ≠ "" → svc.Stream = false → generateService H svc
      = "\t" ++ H.MethodName svc ++ "(*" ++ H.camelCaseName svc.RequestType ++ ") (*"
        ++ H.camelCaseName svc.ReplyType ++ ", error)\n" := by
    intro hr hs
    rw [key, if_neg hr, hs]
    apply String.ext
    simp
  have hmany : H.camelCaseName svc.ReplyType ≠ "" → svc.Stream = true → generateService H svc
      = "\t" ++ H.MethodName svc ++ "(*" ++ H.camelCaseName svc.RequestType ++ ") ([]*"
        ++ H.camelCaseName svc.ReplyType ++ ", error)\n" := by
    intro hr hs
    rw [key, if_neg hr, hs]
    apply String.ext
    simp
  exact ⟨key, hnone, hone, hmany, fun hcc =>
    ⟨fun hr => hnone ((hcc _).mpr hr),
      fun hr hs => hone (fun h => hr ((hcc _).mp h)) hs,
      fun hr hs => hmany (fun h => hr ((hcc _).mp h)) hs⟩⟩

/-- Witness of C6: the scenario of the specification, a streaming service with request
`Dump` and reply `Details`, gets a method returning a sequence of `Details`; without
streaming it returns one `Details`; and without a reply type it returns only `error`. -/
theorem service_method_line_witness :
    generateService sampleHelpers { RequestType := "Dump", ReplyType := "Details", Stream := true }
      = "\tDump(*Dump) ([]*Details, error)\n" ∧
    generateService sampleHelpers { RequestType := "Get", ReplyType := "Reply", Stream := false }
      = "\tGet(*Get) (*Reply, error)\n" ∧
    generateService sampleHelpers { RequestType := "Ping", ReplyType := "", Stream := false }
      = "\tPing(*Ping) error\n" := by
  have hcc : ∀ s, sampleHelpers.camelCaseName s = "" ↔ s = "" := fun s => by
    simp [sampleHelpers]
  have hmany := ((service_method_line sampleHelpers
    { RequestType := "Dump", ReplyType := "Details", Stream := true }).2.2.2.2 hcc).2.2
    (by decide) rfl
  have hone := ((service_method_line sampleHelpers
    { RequestType := "Get", ReplyType := "Reply", Stream := false }).2.2.2.2 hcc).2.1
    (by decide) rfl
  have hnone := ((service_method_line sampleHelpers
    { RequestType := "Ping", ReplyType := "", Stream := false }).2.2.2.2 hcc).1 rfl
  refine ⟨?_, ?_, ?_⟩
  · rw [hmany]; decide
  · rw [hone]; decide
  · rw [hnone]; decide

/-! ## C7: the structure and the accessors of a union -/

theorem generateUnionAccessors_eq (H : Helpers) (ctx : context) (name : String) :
    ∀ (l : List Field) (w : String),
      generateUnionAccessors H ctx name l w = w ++ String.join
        (l.map (fun f => generateUnionGetterSetter name (H.camelCaseName f.Name)
          (H.convertToGoType ctx f.Type_))) := by
  intro l
  induction l with
  | nil => intro w; simp [generateUnionAccessors, join_nil]
  | cons f l ih =>
    intro w
    simp only [generateUnionAccessors, List.map_cons, join_cons, ih, String.append_assoc]

/-- C7: `generateUnion` writes a structure whose only line between the braces is
`Union_data`, a byte array of length `getUnionSize`, then the name and CRC getters, and
then one setter/getter block per declared field, in declared order, none skipped; the
block of a field is `Set<F>`/`Get<F>` typed with the field's mapped type. -/
theorem union_layout (H : Helpers) (ctx : context) (union : Union) :
    generateUnion H ctx union
      = generateComment ctx (H.camelCaseName union.Name) union.Name "union"
        ++ "type " ++ H.camelCaseName union.Name ++ " struct \x7b\n"
        ++ "\tUnion_data [" ++ toString (H.getUnionSize ctx union) ++ "]byte\n"
        ++ "\x7d\n"
        ++ generateTypeNameGetter H (H.camelCaseName union.Name) union.Name
        ++ generateCrcGetter H (H.camelCaseName union.Name) union.CRC
        ++ String.join (union.Fields.map (fun f =>
            generateUnionGetterSetter (H.camelCaseName union.Name) (H.camelCaseName f.Name)
              (H.convertToGoType ctx f.Type_)))
        ++ "\n" ∧
    (union.Fields.map (fun f =>
        generateUnionGetterSetter (H.camelCaseName union.Name) (H.camelCaseName f.Name)
          (H.convertToGoType ctx f.Type_))).length = union.Fields.length ∧
    (∀ F T : String, ∃ setBody getBody : String,
      generateUnionGetterSetter (H.camelCaseName union.Name) F T
        = "\nfunc (u *" ++ H.camelCaseName union.Name ++ ") Set" ++ F ++ "(a " ++ T ++ ") \x7b\n"
          ++ setBody ++ "\x7d\n"
          ++ "func (u *" ++ H.camelCaseName union.Name ++ ") Get" ++ F ++ "() (a " ++ T
          ++ ") \x7b\n" ++ getBody ++ "\x7d\n") := by
  refine ⟨?_, by simp, ?_⟩
  · apply String.ext
    simp [generateUnion, generateUnionAccessors_eq]
  · intro F T
    refine ⟨"\tvar b = new(bytes.Buffer)\n"
        ++ "\tif err := struc.Pack(b, &a); err != nil \x7b\n"
        ++ "\t\treturn\n"
        ++ "\t\x7d\n"
        ++ "\tcopy(u.Union_data[:], b.Bytes())\n",
      "\tvar b = bytes.NewReader(u.Union_data[:])\n"
        ++ "\tstruc.Unpack(b, &a)\n"
        ++ "\treturn\n", ?_⟩
    simp only [generateUnionGetterSetter, String.append_assoc]

/-! ## C9: the checksum getter -/

theorem isPrefixOf_append_drop (p l : List Char) (h : p.isPrefixOf l = true) :
    p ++ l.drop p.length = l := by
  rw [List.isPrefixOf_iff_prefix] at h
  obtain ⟨t, rfl⟩ := h
  simp

/-- C9 as stated fails: for the checksum `0x0x12` the string embedded in the accessor
is `0x12`, which still starts with the marker `0x`. -/
theorem crc_getter_keeps_second_marker :
    generateCrcGetter sampleHelpers "T" "0x0x12"
      = "func (*T) GetCrcString() string \x7b\n\treturn \"0x12\"\n\x7d\n" ∧
    strings.TrimPrefix "0x0x12" "0x" = "0x12" ∧
    strings.HasPrefix (strings.TrimPrefix "0x0x12" "0x") "0x" = true := by
  decide

/-- C9 (amended): the string `generateCrcGetter` embeds (through `%q`) is the checksum
with one leading `0x` stripped when the checksum starts with `0x`, and the checksum
unchanged otherwise; prefixed again with what was stripped it equals the checksum; and
it starts with `0x` exactly when the checksum starts with `0x0x`. -/
theorem crc_getter_strips_one_marker (H : Helpers) (structName c : String) :
    generateCrcGetter H structName c
      = "func (*" ++ structName ++ ") GetCrcString() string \x7b\n\treturn "
        ++ H.quote (strings.TrimPrefix c "0x") ++ "\n\x7d\n" ∧
    strings.TrimPrefix c "0x"
      = (if strings.HasPrefix c "0x" then String.mk (c.data.drop 2) else c) ∧
    (if strings.HasPrefix c "0x" then "0x" else "") ++ strings.TrimPrefix c "0x" = c ∧
    strings.HasPrefix (strings.TrimPrefix c "0x") "0x" = strings.HasPrefix c "0x0x" := by
  refine ⟨rfl, rfl, ?_, ?_⟩
  · unfold strings.TrimPrefix
    by_cases h : strings.HasPrefix c "0x" = true
    · simp only [h, if_true]
      apply String.ext
      exact isPrefixOf_append_drop _ _ h
    · simp [h]
  · unfold strings.TrimPrefix strings.HasPrefix
    obtain ⟨l⟩ := c
    match l with
    | [] => decide
    | [a] =>
      by_cases ha : a = '0'
      · subst ha; simp [List.isPrefixOf]
      · have ha' : ¬ '0' = a := fun h => ha h.symm
        have hbeq : ('0' == a) = false := by simpa using ha'
        simp [List.isPrefixOf, ha', hbeq]
    | a :: b :: t =>
      by_cases ha : a = '0'
      · subst ha
        by_cases hb : b = 'x'
        · subst hb; simp [List.isPrefixOf]
        · have hb' : ¬ 'x' = b := fun h => hb h.symm
          simp [List.isPrefixOf, hb']
      · have ha' : ¬ '0' = a := fun h => ha h.symm
        have hbeq : ('0' == a) = false := by simpa using ha'
        simp [List.isPrefixOf, ha', hbeq]

/-! ## C10: the constants of an enum -/

theorem generateEnumEntries_eq (name : String) :
    ∀ (l : List EnumEntry) (w : String),
      generateEnumEntries name l w = w ++ String.join
        (l.map (fun e => "\t" ++ e.Name ++ " " ++ name ++ " = " ++ toString e.Value ++ "\n"))
    := by
  intro l
  induction l with
  | nil => intro w; simp [generateEnumEntries, join_nil]
  | cons e l ih =>
    intro w
    simp only [generateEnumEntries, List.map_cons, join_cons, ih, String.append_assoc]

/-- C10: the text `generateEnum` writes between `const (` and `)` is one constant line
per declared entry, in declared order; line `i` binds the name of entry `i`, as
declared, to the value of entry `i` with the emitted type of the enum; there are as many
lines as entries, whatever names and values repeat. -/
theorem enum_constants (H : Helpers) (ctx : context) (enum : Enum) :
    generateEnum H ctx enum
      = generateComment ctx (H.camelCaseName enum.Name) enum.Name "enum"
        ++ "type " ++ H.camelCaseName enum.Name ++ " " ++ (H.binapiTypes enum.Type_).getD ""
        ++ "\n" ++ "\n" ++ "const (\n"
        ++ String.join (enum.Entries.map (fun e =>
            "\t" ++ e.Name ++ " " ++ H.camelCaseName enum.Name ++ " = " ++ toString e.Value
              ++ "\n"))
        ++ ")\n" ++ "\n" ∧
    (enum.Entries.map (fun e =>
        "\t" ++ e.Name ++ " " ++ H.camelCaseName enum.Name ++ " = " ++ toString e.Value
          ++ "\n")).length = enum.Entries.length ∧
    (∀ i : Nat,
      (enum.Entries.map (fun e =>
        "\t" ++ e.Name ++ " " ++ H.camelCaseName enum.Name ++ " = " ++ toString e.Value
          ++ "\n"))[i]?
        = enum.Entries[i]?.map (fun e =>
            "\t" ++ e.Name ++ " " ++ H.camelCaseName enum.Name ++ " = " ++ toString e.Value
              ++ "\n")) := by
  refine ⟨?_, by simp, fun i => by simp⟩
  apply String.ext
  simp [generateEnum, generateEnumEntries_eq]

/-! ## C11: the definition of an alias -/

/-- C11: `generateAlias` writes the comment of the alias, then the definition
`type <Name> [L]<T>` when the declared length `L` is greater than 0 and
`type <Name> <T>` when the length is 0, with `<Name>` the camel-cased alias name and `<T>`
the mapped type of the aliased type, then an empty line. -/
theorem alias_definition (H : Helpers) (ctx : context) (a : Alias) :
    (0 < a.Length → generateAlias H ctx a
      = generateComment ctx (H.camelCaseName a.Name) a.Name "alias"
        ++ "type " ++ H.camelCaseName a.Name ++ " [" ++ toString a.Length ++ "]"
        ++ H.convertToGoType ctx a.Type_ ++ "\n" ++ "\n") ∧
    (a.Length = 0 → generateAlias H ctx a
      = generateComment ctx (H.camelCaseName a.Name) a.Name "alias"
        ++ "type " ++ H.camelCaseName a.Name ++ " "
        ++ H.convertToGoType ctx a.Type_ ++ "\n" ++ "\n") := by
  constructor
  · intro h
    apply String.ext
    simp [generateAlias, h]
  · intro h
    apply String.ext
    simp [generateAlias, h]

/-- Witness of C11: an alias of length 4 over `u8` and an alias of length 0. -/
theorem alias_definition_witness :
    generateAlias sampleHelpers sampleContext { Name := "ip4", Type_ := "u8", Length := 4 }
      = "// ip4 represents VPP binary API alias \x27ip4\x27:\n//\n" ++ "type ip4 [4]u8\n\n" ∧
    generateAlias sampleHelpers sampleContext { Name := "idx", Type_ := "u32", Length := 0 }
      = "// idx represents VPP binary API alias \x27idx\x27:\n//\n" ++ "type idx u32\n\n" := by
  have h4 := (alias_definition sampleHelpers sampleContext
    { Name := "ip4", Type_ := "u8", Length := 4 }).1 (by decide)
  have h0 := (alias_definition sampleHelpers sampleContext
    { Name := "idx", Type_ := "u32", Length := 0 }).2 rfl
  constructor
  · rw [h4]; decide
  · rw [h0]; decide

/-! ## C12, C13: the text of a package -/

theorem generateServiceLines_eq (H : Helpers) :
    ∀ (l : List Service) (w : String),
      generateServiceLines H l w = w ++ String.join (l.map (generateService H)) := by
  intro l
  induction l with
  | nil => intro w; simp [generateServiceLines, join_nil]
  | cons a l ih =>
    intro w
    simp only [generateServiceLines, List.map_cons, join_cons, ih, String.append_assoc]

theorem generateEnums_eq (H : Helpers) (ctx : context) :
    ∀ (l : List Enum) (w : String),
      generateEnums H ctx l w = w ++ String.join (l.map (generateEnum H ctx)) := by
  intro l
  induction l with
  | nil => intro w; simp [generateEnums, join_nil]
  | cons a l ih =>
    intro w
    simp only [generateEnums, List.map_cons, join_cons, ih, String.append_assoc]

theorem generateAliases_eq (H : Helpers) (ctx : context) :
    ∀ (l : List Alias) (w : String),
      generateAliases H ctx l w = w ++ String.join (l.map (generateAlias H ctx)) := by
  intro l
  induction l with
  | nil => intro w; simp [generateAliases, join_nil]
  | cons a l ih =>
    intro w
    simp only [generateAliases, List.map_cons, join_cons, ih, String.append_assoc]

theorem generateUnions_eq (H : Helpers) (ctx : context) :
    ∀ (l : List Union) (w : String),
      generateUnions H ctx l w = w ++ String.join (l.map (generateUnion H ctx)) := by
  intro l
  induction l with
  | nil => intro w; simp [generateUnions, join_nil]
  | cons a l ih =>
    intro w
    simp only [generateUnions, List.map_cons, join_cons, ih, String.append_assoc]

theorem generateRegistrations_eq (H : Helpers) (ctx : context) :
    ∀ (l : List Message) (w : String),
      generateRegistrations H ctx l w = w ++ String.join (l.map (registrationLine H ctx))
    := by
  intro l
  induction l with
  | nil => intro w; simp [generateRegistrations, join_nil]
  | cons a l ih =>
    intro w
    simp only [generateRegistrations, List.map_cons, join_cons, ih, registrationLine,
      String.append_assoc]

theorem generateType_isSome (H : Helpers) (ctx : context) (typ : Type_) :
    ∃ t, generateType H ctx typ = some t := by
  have h := generateTypeFields_spec H ctx typ.Fields typ.Fields [] { out := "", calls := [] } rfl
  simp only [List.length_nil] at h
  simp only [generateType, h]
  exact ⟨_, rfl⟩

theorem generateMessage_isSome (H : Helpers) (ctx : context) (msg : Message) :
    ∃ t, generateMessage H ctx msg = some t := by
  obtain ⟨st, hst⟩ :=
    generateMessageFields_total H ctx msg.Fields msg.Fields [] MessageLoop.init rfl
  simp only [List.length_nil] at hst
  simp only [generateMessage, hst]
  exact ⟨_, rfl⟩

theorem generateTypes_eq (H : Helpers) (ctx : context) :
    ∀ (l : List Type_) (w : String),
      generateTypes H ctx l w
        = some (w ++ String.join (l.map (fun t => (generateType H ctx t).getD ""))) := by
  intro l
  induction l with
  | nil => intro w; simp [generateTypes, join_nil]
  | cons a l ih =>
    intro w
    obtain ⟨t, ht⟩ := generateType_isSome H ctx a
    simp only [generateTypes, ht, List.map_cons, join_cons, ih, Option.getD_some,
      String.append_assoc]

theorem generateMessages_eq (H : Helpers) (ctx : context) :
    ∀ (l : List Message) (w : String),
      generateMessages H ctx l w
        = some (w ++ String.join (l.map (fun m => (generateMessage H ctx m).getD ""))) := by
  intro l
  induction l with
  | nil => intro w; simp [generateMessages, join_nil]
  | cons a l ih =>
    intro w
    obtain ⟨t, ht⟩ := generateMessage_isSome H ctx a
    simp only [generateMessages, ht, List.map_cons, join_cons, ih, Option.getD_some,
      String.append_assoc]

theorem section_step {α : Type} (l : List α) (f : α → String)
    (loop : List α → String → String) (title w : String)
    (hloop : ∀ l w, loop l w = w ++ String.join (l.map f)) :
    (if l.length > 0 then loop l (w ++ title) else w) = w ++ sectionText title (l.map f) := by
  cases l with
  | nil => simp [sectionText]
  | cons a l => simp [sectionText, hloop, String.append_assoc]

theorem section_step_option {α : Type} (l : List α) (f : α → String)
    (loop : List α → String → Option String) (title w : String)
    (hloop : ∀ l w, loop l w = some (w ++ String.join (l.map f))) :
    (if l.length > 0 then loop l (w ++ title) else some w)
      = some (w ++ sectionText title (l.map f)) := by
  cases l with
  | nil => simp [sectionText]
  | cons a l => simp [sectionText, hloop, String.append_assoc]

theorem services_step (H : Helpers) (ctx : context) (w : String) :
    (if ctx.packageData.Services.length > 0 then
        w ++ generateServices H ctx ctx.packageData.Services else w)
      = w ++ servicesBlock H ctx := by
  unfold servicesBlock generateServices
  cases hs : ctx.packageData.Services with
  | nil => simp
  | cons a l =>
    simp only [List.length_cons, gt_iff_lt, Nat.zero_lt_succ, if_true, generateServiceLines_eq,
      reduceCtorEq, if_false]
    apply String.ext
    simp

theorem generatePackage_eq (H : Helpers) (includeAPIVer : Bool) (ctx : context) :
    generatePackage H includeAPIVer ctx = some
      (generateHeader ctx ++ generateImports ctx ++ apiVersionText includeAPIVer ctx
        ++ servicesBlock H ctx
        ++ sectionText "/* Enums */\n\n" (ctx.packageData.Enums.map (generateEnum H ctx))
        ++ sectionText "/* Aliases */\n\n" (ctx.packageData.Aliases.map (generateAlias H ctx))
        ++ sectionText "/* Types */\n\n"
            (ctx.packageData.Types.map (fun t => (generateType H ctx t).getD ""))
        ++ sectionText "/* Unions */\n\n" (ctx.packageData.Unions.map (generateUnion H ctx))
        ++ sectionText "/* Messages */\n\n"
            (ctx.packageData.Messages.map (fun m => (generateMessage H ctx m).getD ""))
        ++ registrationTable H ctx) := by
  have hver : ∀ w : String,
      (if includeAPIVer = true then
          w ++ "// " ++ "VlAPIVersion" ++ " represents version of the binary API module.\n"
            ++ "const " ++ "VlAPIVersion" ++ " = " ++ toString ctx.packageData.APIVersion
            ++ "\n" ++ "\n"
        else w) = w ++ apiVersionText includeAPIVer ctx := by
    intro w
    cases includeAPIVer
    · simp [apiVersionText]
    · apply String.ext
      simp [apiVersionText]
  simp only [generatePackage]
  simp only [hver]
  simp only [services_step]
  simp only [section_step _ _ _ _ _ (generateEnums_eq H ctx)]
  simp only [section_step _ _ _ _ _ (generateAliases_eq H ctx)]
  simp only [section_step_option _ _ _ _ _ (generateTypes_eq H ctx)]
  simp only [section_step _ _ _ _ _ (generateUnions_eq H ctx)]
  simp only [section_step_option _ _ _ _ _ (generateMessages_eq H ctx)]
  simp only [generateRegistrations_eq, registrationTable, String.append_assoc]

theorem append_eq_empty (a b : String) (h : a ++ b = "") : a = "" ∧ b = "" := by
  have hd := congrArg String.data h
  simp only [String.data_append] at hd
  have h' : a.data = [] ∧ b.data = [] := List.append_eq_nil.mp hd
  exact ⟨String.ext h'.1, String.ext h'.2⟩

theorem sectionText_eq_empty {α : Type} (title : String) (l : List α) (f : α → String)
    (ht : title ≠ "") : sectionText title (l.map f) = "" ↔ l = [] := by
  unfold sectionText
  cases l with
  | nil => simp
  | cons a l =>
    simp only [List.map_cons, reduceCtorEq, if_false, iff_false]
    intro h
    exact ht (append_eq_empty _ _ h).1

theorem servicesBlock_eq_empty (H : Helpers) (ctx : context) :
    servicesBlock H ctx = "" ↔ ctx.packageData.Services = [] := by
  unfold servicesBlock
  by_cases hs : ctx.packageData.Services = []
  · simp [hs]
  · simp only [hs, if_false, iff_false]
    intro h
    have h1 := (append_eq_empty _ _ h).1
    have h2 := (append_eq_empty _ _ h1).1
    have h3 := (append_eq_empty _ _ h2).1
    have h4 := (append_eq_empty _ _ h3).2
    exact absurd h4 (by decide)

/-- C12: the text `generatePackage` writes is, in this order, the header, the imports,
the optional API version constant, the services block, the sections of the enums, the
aliases, the types, the unions and the messages, and the registration table. A section
is its title followed by the texts of the entities of that kind in declared order (the
emitters of types and messages always succeed); the services block lists the method lines
in declared order. Each of these six parts is empty exactly when the package declares no
entity of that kind. -/
theorem package_text_order (H : Helpers) (includeAPIVer : Bool) (ctx : context) :
    generatePackage H includeAPIVer ctx = some
      (generateHeader ctx ++ generateImports ctx ++ apiVersionText includeAPIVer ctx
        ++ servicesBlock H ctx
        ++ sectionText "/* Enums */\n\n" (ctx.packageData.Enums.map (generateEnum H ctx))
        ++ sectionText "/* Aliases */\n\n" (ctx.packageData.Aliases.map (generateAlias H ctx))
        ++ sectionText "/* Types */\n\n"
            (ctx.packageData.Types.map (fun t => (generateType H ctx t).getD ""))
        ++ sectionText "/* Unions */\n\n" (ctx.packageData.Unions.map (generateUnion H ctx))
        ++ sectionText "/* Messages */\n\n"
            (ctx.packageData.Messages.map (fun m => (generateMessage H ctx m).getD ""))
        ++ registrationTable H ctx) ∧
    (∀ t : Type_, ∃ text, generateType H ctx t = some text) ∧
    (∀ m : Message, ∃ text, generateMessage H ctx m = some text) ∧
    (servicesBlock H ctx = "" ↔ ctx.packageData.Services = []) ∧
    (sectionText "/* Enums */\n\n" (ctx.packageData.Enums.map (generateEnum H ctx)) = ""
      ↔ ctx.packageData.Enums = []) ∧
    (sectionText "/* Aliases */\n\n" (ctx.packageData.Aliases.map (generateAlias H ctx)) = ""
      ↔ ctx.packageData.Aliases = []) ∧
    (sectionText "/* Types */\n\n"
        (ctx.packageData.Types.map (fun t => (generateType H ctx t).getD "")) = ""
      ↔ ctx.packageData.Types = []) ∧
    (sectionText "/* Unions */\n\n" (ctx.packageData.Unions.map (generateUnion H ctx)) = ""
      ↔ ctx.packageData.Unions = []) ∧
    (sectionText "/* Messages */\n\n"
        (ctx.packageData.Messages.map (fun m => (generateMessage H ctx m).getD "")) = ""
      ↔ ctx.packageData.Messages = []) :=
  ⟨generatePackage_eq H includeAPIVer ctx,
    generateType_isSome H ctx,
    generateMessage_isSome H ctx,
    servicesBlock_eq_empty H ctx,
    sectionText_eq_empty _ _ _ (by decide),
    sectionText_eq_empty _ _ _ (by decide),
    sectionText_eq_empty _ _ _ (by decide),
    sectionText_eq_empty _ _ _ (by decide),
    sectionText_eq_empty _ _ _ (by decide)⟩

set_option maxRecDepth 20000 in
/-- C13 as stated fails: for the module `vpe` with the message `show_version`, emitted as
`ShowVersion`, the registration table holds the single entry registering `ShowVersion`
under the string `vpe.ShowVersion`; the original schema name `show_version` occurs
nowhere in the table. -/
theorem registration_omits_schema_name :
    registrationTable camelHelpers vpeContext
      = "\nfunc init() \x7b\n\tapi.RegisterMessage((*ShowVersion)(nil), \"vpe.ShowVersion\")\n\x7d\n"
    ∧ ¬ ("show_version".data <:+: (registrationTable camelHelpers vpeContext).data) := by
  decide

/-- C13 (amended): the text of `generatePackage` ends with the registration table, which
holds exactly one entry per declared message, in declared order; the entry of a message
registers its emitted identifier (a nil pointer of the emitted type) under the string made
of the module name, a dot and the emitted identifier. -/
theorem registration_table_entries (H : Helpers) (includeAPIVer : Bool) (ctx : context) :
    (∃ before : String, generatePackage H includeAPIVer ctx = some
      (before ++ ("\n" ++ "func init() \x7b\n"
        ++ String.join (ctx.packageData.Messages.map (fun m =>
            "\tapi.RegisterMessage((*" ++ H.camelCaseName m.Name ++ ")(nil), \""
              ++ ctx.moduleName ++ "." ++ H.camelCaseName m.Name ++ "\")\n"))
        ++ "\x7d\n"))) ∧
    (ctx.packageData.Messages.map (fun m =>
        "\tapi.RegisterMessage((*" ++ H.camelCaseName m.Name ++ ")(nil), \""
          ++ ctx.moduleName ++ "." ++ H.camelCaseName m.Name ++ "\")\n")).length
      = ctx.packageData.Messages.length ∧
    (∀ i : Nat,
      (ctx.packageData.Messages.map (fun m =>
        "\tapi.RegisterMessage((*" ++ H.camelCaseName m.Name ++ ")(nil), \""
          ++ ctx.moduleName ++ "." ++ H.camelCaseName m.Name ++ "\")\n"))[i]?
        = ctx.packageData.Messages[i]?.map (fun m =>
            "\tapi.RegisterMessage((*" ++ H.camelCaseName m.Name ++ ")(nil), \""
              ++ ctx.moduleName ++ "." ++ H.camelCaseName m.Name ++ "\")\n")) := by
  refine ⟨⟨generateHeader ctx ++ generateImports ctx ++ apiVersionText includeAPIVer ctx
        ++ servicesBlock H ctx
        ++ sectionText "/* Enums */\n\n" (ctx.packageData.Enums.map (generateEnum H ctx))
        ++ sectionText "/* Aliases */\n\n" (ctx.packageData.Aliases.map (generateAlias H ctx))
        ++ sectionText "/* Types */\n\n"
            (ctx.packageData.Types.map (fun t => (generateType H ctx t).getD ""))
        ++ sectionText "/* Unions */\n\n" (ctx.packageData.Unions.map (generateUnion H ctx))
        ++ sectionText "/* Messages */\n\n"
            (ctx.packageData.Messages.map (fun m => (generateMessage H ctx m).getD "")), ?_⟩,
    by simp, fun i => by simp⟩
  rw [generatePackage_eq]
  rfl

/-! ## C14, C15, C20: getContext -/

theorem indexFrom_dot (cs : List Char) :
    ∀ k : Nat, '.' ∈ cs →
      strings.IndexFrom ['.'] cs k = ((k + byteLen (cs.takeWhile (fun c => c != '.')) : Nat) : Int)
    := by
  induction cs with
  | nil => intro k h; simp at h
  | cons c cs ih =>
    intro k h
    by_cases hc : c = '.'
    · subst hc
      simp [strings.IndexFrom, byteLen]
    · have hmem : '.' ∈ cs := by
        rcases List.mem_cons.mp h with h | h
        · exact absurd h.symm hc
        · exact h
      have hc' : ¬ '.' = c := fun h => hc h.symm
      have hb : ('.' == c) = false := by simpa using hc'
      have hne : (c != '.') = true := by simpa using hc
      simp only [strings.IndexFrom, List.isPrefixOf, hb, Bool.false_and, Bool.false_eq_true,
        if_false, ih _ hmem, List.takeWhile_cons, hne, if_true, byteLen, List.map_cons,
        List.sum_cons]
      push_cast
      ring

theorem sliceToFrom_dot (cs : List Char) :
    ∀ k : Nat, '.' ∈ cs →
      sliceToFrom ((k + byteLen (cs.takeWhile (fun c => c != '.')) : Nat) : Int) cs k
        = cs.takeWhile (fun c => c != '.') := by
  induction cs with
  | nil => intro k h; simp at h
  | cons c cs ih =>
    intro k h
    by_cases hc : c = '.'
    · subst hc
      simp [sliceToFrom, byteLen]
    · have hmem : '.' ∈ cs := by
        rcases List.mem_cons.mp h with h | h
        · exact absurd h.symm hc
        · exact h
      have hne : (c != '.') = true := by simpa using hc
      have hpos : 0 < c.utf8Size := Char.utf8Size_pos c
      have hlt : (k : Int) < ((k + byteLen ((c :: cs).takeWhile (fun c => c != '.')) : Nat) : Int)
          := by
        simp only [List.takeWhile_cons, hne, if_true, byteLen, List.map_cons, List.sum_cons]
        omega
      have hidx : k + byteLen ((c :: cs).takeWhile (fun c => c != '.'))
          = (k + c.utf8Size) + byteLen (cs.takeWhile (fun c => c != '.')) := by
        simp only [List.takeWhile_cons, hne, if_true, byteLen, List.map_cons, List.sum_cons]
        omega
      simp only [sliceToFrom, hlt, if_true]
      rw [hidx, ih _ hmem]
      simp [List.takeWhile_cons, hne]

theorem base_of_suffix (inputFile : String)
    (h : strings.HasSuffix inputFile inputFileExt = true) :
    ∃ p : List Char, inputFile.data = p ++ ".api.json".data ∧
      (filepath.Base inputFile).data
        = (p.reverse.takeWhile (fun c => c != '/')).reverse ++ ".api.json".data := by
  unfold strings.HasSuffix at h
  rw [List.isSuffixOf_iff_suffix] at h
  obtain ⟨p, hp⟩ := h
  refine ⟨p, hp.symm, ?_⟩
  have hne : inputFile ≠ "" := by
    intro h0
    rw [h0] at hp
    have := congrArg List.length hp
    simp [inputFileExt] at this
  have hrev : inputFile.data.reverse = ".api.json".data.reverse ++ p.reverse := by
    rw [← hp]; simp [inputFileExt]
  have hdrop : (inputFile.data.reverse.dropWhile (fun c => c == '/')) = inputFile.data.reverse
      := by
    rw [hrev]; rfl
  have htake : inputFile.data.reverse.takeWhile (fun c => c != '/')
      = ".api.json".data.reverse ++ p.reverse.takeWhile (fun c => c != '/') := by
    rw [hrev]
    rw [List.takeWhile_append]
    have hall : (List.takeWhile (fun c => c != '/') ".api.json".data.reverse).length
        = ".api.json".data.reverse.length := by decide
    rw [if_pos hall]
  unfold filepath.Base
  simp only [hne, if_false, hdrop, List.reverse_reverse, htake, List.reverse_append]
  have hnil : ¬ ((p.reverse.takeWhile (fun c => c != '/')).reverse
      ++ ['.', 'a', 'p', 'i', '.', 'j', 's', 'o', 'n'] = []) := by
    simp
  rw [if_neg hnil]

theorem base_has_dot (inputFile : String)
    (h : strings.HasSuffix inputFile inputFileExt = true) :
    '.' ∈ (filepath.Base inputFile).data := by
  obtain ⟨p, _, hb⟩ := base_of_suffix inputFile h
  rw [hb]
  simp

theorem index_of_suffix (inputFile : String)
    (h : strings.HasSuffix inputFile inputFileExt = true) :
    strings.Index (filepath.Base inputFile) "."
      = (byteLen ((filepath.Base inputFile).data.takeWhile (fun c => c != '.')) : Int) ∧
    sliceTo (filepath.Base inputFile) (strings.Index (filepath.Base inputFile) ".")
      = String.mk ((filepath.Base inputFile).data.takeWhile (fun c => c != '.')) := by
  have hdot := base_has_dot inputFile h
  have h1 := indexFrom_dot _ 0 hdot
  have h2 := sliceToFrom_dot _ 0 hdot
  simp only [Nat.zero_add] at h1 h2
  have hidx : strings.Index (filepath.Base inputFile) "."
      = (byteLen ((filepath.Base inputFile).data.takeWhile (fun c => c != '.')) : Int) := h1
  refine ⟨hidx, ?_⟩
  unfold sliceTo
  rw [hidx, h2]

theorem getContext_of_suffix (H : Helpers) (filepathJoin : String → String → String)
    (inputFile outputDir : String) (h : strings.HasSuffix inputFile inputFileExt = true) :
    getContext H filepathJoin inputFile outputDir = some (Except.ok
      { inputFile := inputFile
        outputFile :=
          filepathJoin
            (filepathJoin outputDir (packageNameOf
              (String.mk ((filepath.Base inputFile).data.takeWhile (fun c => c != '.')))))
            (packageNameOf
              (String.mk ((filepath.Base inputFile).data.takeWhile (fun c => c != '.')))
              ++ outputFileExt)
        inputData := ""
        moduleName := String.mk ((filepath.Base inputFile).data.takeWhile (fun c => c != '.'))
        packageName := packageNameOf
          (String.mk ((filepath.Base inputFile).data.takeWhile (fun c => c != '.')))
        packageData :=
          { APIVersion := 0, Services := [], Enums := [], Aliases := [], Types := [],
            Unions := [], Messages := [] } }) := by
  obtain ⟨hidx, hslice⟩ := index_of_suffix inputFile h
  have hnonneg : ¬ (strings.Index (filepath.Base inputFile) "." < 0) := by
    rw [hidx]; omega
  simp only [getContext, h, Bool.not_true, Bool.false_eq_true, if_false, hnonneg, hslice,
    packageNameOf]

/-- C14: for an input file path ending in `.api.json`, `getContext` returns a context
whose module name is the base file name up to, not including, its first `.`, and whose
package name is `interfaces` for the module name `interface`, `maps` for `map`, and
the module name otherwise; the module name is the one derived from the file name in all
three cases. -/
theorem getContext_names (H : Helpers) (filepathJoin : String → String → String)
    (inputFile outputDir : String) (h : strings.HasSuffix inputFile inputFileExt = true) :
    ∃ ctx : context,
      getContext H filepathJoin inputFile outputDir = some (Except.ok ctx) ∧
      ctx.inputFile = inputFile ∧
      ctx.moduleName
        = String.mk ((filepath.Base inputFile).data.takeWhile (fun c => c != '.')) ∧
      (ctx.moduleName = "interface" → ctx.packageName = "interfaces") ∧
      (ctx.moduleName = "map" → ctx.packageName = "maps") ∧
      (ctx.moduleName ≠ "interface" → ctx.moduleName ≠ "map" →
        ctx.packageName = ctx.moduleName) := by
  refine ⟨_, getContext_of_suffix H filepathJoin inputFile outputDir h, rfl, rfl, ?_, ?_, ?_⟩
  · intro hm
    have hm' : String.mk ((filepath.Base inputFile).data.takeWhile (fun c => c != '.'))
        = "interface" := hm
    show packageNameOf _ = "interfaces"
    rw [hm']
    decide
  · intro hm
    have hm' : String.mk ((filepath.Base inputFile).data.takeWhile (fun c => c != '.'))
        = "map" := hm
    show packageNameOf _ = "maps"
    rw [hm']
    decide
  · intro h1 h2
    have h1' : String.mk ((filepath.Base inputFile).data.takeWhile (fun c => c != '.'))
        ≠ "interface" := h1
    have h2' : String.mk ((filepath.Base inputFile).data.takeWhile (fun c => c != '.'))
        ≠ "map" := h2
    show packageNameOf _ = _
    simp only [packageNameOf, h1', h2', if_false]

/-- Witness of C14: the file `/vpp/api/interface.api.json` gives the module name
`interface` and the package name `interfaces`. -/
theorem getContext_names_witness :
    ∃ ctx : context,
      getContext sampleHelpers sampleJoin "/vpp/api/interface.api.json" "out"
        = some (Except.ok ctx) ∧
      ctx.moduleName = "interface" ∧ ctx.packageName = "interfaces" := by
  obtain ⟨ctx, h1, _, h3, h4, _⟩ := getContext_names sampleHelpers sampleJoin
    "/vpp/api/interface.api.json" "out" (by decide)
  have hm : ctx.moduleName = "interface" := by rw [h3]; decide
  exact ⟨ctx, h1, hm, h4 hm⟩

theorem quote_plain (s : String) (h : plainName s) :
    quotePrintableASCII s = "\"" ++ s ++ "\"" := by
  have hflat : ∀ l : List Char,
      (∀ c ∈ l, (0x20 ≤ c.toNat ∧ c.toNat < 0x7F) ∧ c ≠ Char.ofNat 34 ∧ c ≠ Char.ofNat 92) →
      l.flatMap
          (fun c => if c = Char.ofNat 34 ∨ c = Char.ofNat 92 then [Char.ofNat 92, c] else [c])
        = l := by
    intro l
    induction l with
    | nil => intro _; rfl
    | cons c l ih =>
      intro hl
      have hc := hl c (List.mem_cons_self c l)
      have hrest := ih (fun d hd => hl d (List.mem_cons_of_mem c hd))
      simp only [List.flatMap_cons, hrest]
      simp [hc.2.1, hc.2.2]
  apply String.ext
  simp only [quotePrintableASCII, hflat s.data h, String.data_append]
  rfl

theorem plainName_printable (s : String) (h : plainName s) : printableASCII s :=
  fun c hc => (h c hc).1

/-- C15 as stated fails: for the input file name `a"b`, which lacks the suffix and
consists of printable ASCII characters, `getContext` with the `%q` of the Go library
returns an error whose message holds the quoted name with the double quote escaped; the
file name itself does not occur in the message. -/
theorem getContext_message_escapes_name :
    printableASCII "a\"b" ∧
    getContext goQuoteHelpers sampleJoin "a\"b" "out"
      = some (Except.error "invalid input file name: \"a\\\"b\"") ∧
    ¬ ("a\"b".data <:+: "invalid input file name: \"a\\\"b\"".data) := by
  refine ⟨?_, ?_, ?_⟩
  · unfold printableASCII
    decide
  · rfl
  · decide

/-- C15 (amended): `getContext` returns an error exactly when the input file name lacks
the suffix `.api.json`. Without the suffix it returns no context and the error message
`invalid input file name: ` followed by the file name as `%q` quotes it. When `%q` is the
one of the Go library on printable ASCII strings and the file name consists of printable
ASCII characters, the quoted name is the name between double quotes with a backslash
before each double quote and each backslash; it is the name itself between double quotes
when the name has neither. With the suffix `getContext` returns a context and no
error. -/
theorem getContext_fails_iff (H : Helpers) (filepathJoin : String → String → String)
    (inputFile outputDir : String) :
    ((∃ msg, getContext H filepathJoin inputFile outputDir = some (Except.error msg))
      ↔ strings.HasSuffix inputFile inputFileExt = false) ∧
    (strings.HasSuffix inputFile inputFileExt = false →
      getContext H filepathJoin inputFile outputDir
        = some (Except.error ("invalid input file name: " ++ H.quote inputFile))) ∧
    (strings.HasSuffix inputFile inputFileExt = false → quotesLikeGo H →
      printableASCII inputFile →
      getContext H filepathJoin inputFile outputDir
        = some (Except.error ("invalid input file name: " ++ quotePrintableASCII inputFile))) ∧
    (strings.HasSuffix inputFile inputFileExt = false → quotesLikeGo H →
      plainName inputFile →
      getContext H filepathJoin inputFile outputDir
        = some (Except.error ("invalid input file name: " ++ ("\"" ++ inputFile ++ "\"")))) ∧
    (strings.HasSuffix inputFile inputFileExt = true →
      ∃ ctx, getContext H filepathJoin inputFile outputDir = some (Except.ok ctx)) := by
  have herr : strings.HasSuffix inputFile inputFileExt = false →
      getContext H filepathJoin inputFile outputDir
        = some (Except.error ("invalid input file name: " ++ H.quote inputFile)) := by
    intro h
    simp only [getContext, h, Bool.not_false, if_true]
  refine ⟨⟨?_, fun h => ⟨_, herr h⟩⟩, herr, ?_, ?_, ?_⟩
  · rintro ⟨msg, hmsg⟩
    cases hs : strings.HasSuffix inputFile inputFileExt with
    | false => rfl
    | true =>
      rw [getContext_of_suffix H filepathJoin inputFile outputDir hs] at hmsg
      simp at hmsg
  · intro h hq hprint
    rw [herr h, hq inputFile hprint]
  · intro h hq hplain
    rw [herr h, hq inputFile (plainName_printable inputFile hplain),
      quote_plain inputFile hplain]
  · intro h
    exact ⟨_, getContext_of_suffix H filepathJoin inputFile outputDir h⟩

/-- Witness of C15: `foo.txt` is refused with a message holding the quoted name, and
`vpe.api.json` is accepted. -/
theorem getContext_fails_iff_witness :
    getContext goQuoteHelpers sampleJoin "foo.txt" "out"
      = some (Except.error "invalid input file name: \"foo.txt\"") ∧
    (∃ ctx, getContext goQuoteHelpers sampleJoin "vpe.api.json" "out" = some (Except.ok ctx))
    := by
  have h := getContext_fails_iff goQuoteHelpers sampleJoin "foo.txt" "out"
  have h' := getContext_fails_iff goQuoteHelpers sampleJoin "vpe.api.json" "out"
  constructor
  · rw [h.2.2.2.1 (by decide) (fun _ _ => rfl) (by unfold plainName; decide)]
    rfl
  · exact h'.2.2.2.2 (by decide)

/-- C20: for an input file path ending in `.api.json`, the base file name contains a
`.`; the index `getContext` cuts the module name at is not `-1`, lies between 0 and
the length of the base name in bytes, and `getContext` does not panic. -/
theorem getContext_index_in_range (H : Helpers) (filepathJoin : String → String → String)
    (inputFile outputDir : String) (h : strings.HasSuffix inputFile inputFileExt = true) :
    '.' ∈ (filepath.Base inputFile).data ∧
    strings.Index (filepath.Base inputFile) "." ≠ -1 ∧
    0 ≤ strings.Index (filepath.Base inputFile) "." ∧
    strings.Index (filepath.Base inputFile) "." ≤ (byteLen (filepath.Base inputFile).data : Int) ∧
    getContext H filepathJoin inputFile outputDir ≠ none := by
  obtain ⟨hidx, _⟩ := index_of_suffix inputFile h
  have hle : byteLen ((filepath.Base inputFile).data.takeWhile (fun c => c != '.'))
      ≤ byteLen (filepath.Base inputFile).data := by
    unfold byteLen
    exact List.Sublist.sum_le_sum
      ((List.takeWhile_sublist _).map _) (fun _ _ => Nat.zero_le _)
  refine ⟨base_has_dot inputFile h, ?_, ?_, ?_, ?_⟩
  · rw [hidx]; omega
  · rw [hidx]; omega
  · rw [hidx]; exact_mod_cast hle
  · rw [getContext_of_suffix H filepathJoin inputFile outputDir h]
    simp

/-- Witness of C20: the path `dir.v1/.api.json`, whose base name starts with the `.`,
is cut at index 0. -/
theorem getContext_index_in_range_witness :
    strings.Index (filepath.Base "dir.v1/.api.json") "." = 0 ∧
    getContext sampleHelpers sampleJoin "dir.v1/.api.json" "out" ≠ none := by
  have h := getContext_index_in_range sampleHelpers sampleJoin "dir.v1/.api.json" "out"
    (by decide)
  exact ⟨by decide, h.2.2.2.2⟩

/-! ## C19: header fields of a message -/

theorem sizeofAnnotations_without (H : Helpers) (fields : List Field) (g f : Field)
    (w : String) (hne : g.SizeFrom ≠ f.Name) :
    sizeofAnnotations H f fields w
      = sizeofAnnotations H f (fields.filter (fun x => x != g)) w := by
  rw [sizeofAnnotations_eq, sizeofAnnotations_eq]
  congr 3
  rw [List.filter_filter]
  apply List.filter_congr
  intro x _
  by_cases hx : x.SizeFrom = f.Name
  · have hxg : x ≠ g := fun h => hne (h ▸ hx)
    simp [hx, hxg]
  · simp [hx]

/-- C17 as stated fails: when the field `g` with the dangling size-of relation has the
declared type `string`, `generateField` still writes the synthesized length line, which
carries the annotation `sizeof=data` naming `g`. -/
theorem dangling_string_field_has_length_line :
    generateField sampleHelpers sampleContext danglingStringFields 0
      = some ["\tXXX_dataLen uint32 \x60struc:\"sizeof=data\"\x60\n", "\tdata []string\n"] ∧
    (∀ f ∈ danglingStringFields, f.Name ≠ "missing") ∧
    "sizeof=data".data <:+: "\tXXX_dataLen uint32 \x60struc:\"sizeof=data\"\x60\n".data := by
  decide

/-- C17 (amended): let `g`, at position `j` of a field list, declare a size-of relation
naming a field that does not exist in the list, and let the declared type of `g` not be
`string`. Then `generateField` succeeds for `g` and writes exactly the line of `g`, a
sequence; the loops of `generateType` and `generateMessage` end without error; and `g`
contributes no `sizeof` annotation to any line: for every field `f` of the list the
annotation loop writes the same text as for the list without `g`, and `g` is not among
the fields whose annotations the line of `f` carries. -/
theorem dangling_sizeof_emitted (H : Helpers) (ctx : context) (fields : List Field)
    (j : Nat) (g : Field) (hg : fields[j]? = some g) (hdecl : g.SizeFrom ≠ "")
    (hmiss : ∀ f ∈ fields, f.Name ≠ g.SizeFrom) (hstr : g.Type_ ≠ "string") :
    generateField H ctx fields j
      = some ["\t" ++ emittedName H g ++ " " ++ fieldLineBody H ctx fields g ++ "\n"] ∧
    (∃ body, fieldLineBody H ctx fields g = "[]" ++ elementType H ctx g ++ body) ∧
    (∃ st, generateTypeFields H ctx fields 0 fields { out := "", calls := [] } = some st) ∧
    (∃ st, generateMessageFields H ctx fields 0 fields MessageLoop.init = some st) ∧
    (∀ (i : Nat) (f : Field), fields[i]? = some f →
      (∀ w, sizeofAnnotations H f fields w
        = sizeofAnnotations H f (fields.filter (fun x => x != g)) w) ∧
      g ∉ fields.filter (fun x => x.SizeFrom = f.Name) ∧
      generateField H ctx fields i = some
        ((if f.Type_ = "string" then [lengthLine (emittedName H f)] else []) ++
          ["\t" ++ emittedName H f ++ " " ++ fieldLineBody H ctx fields f ++ "\n"])) := by
  refine ⟨?_, ?_, ?_, ?_, ?_⟩
  · rw [generateField_eq H ctx fields j g hg]
    simp [hstr]
  · unfold fieldLineBody
    by_cases hlen : g.Length > 0
    · simp only [hlen, if_true, String.append_assoc]
      exact ⟨_, rfl⟩
    · simp only [hlen, if_false, unsizedFieldType, ne_eq, hdecl, not_false_eq_true, if_true,
        String.append_assoc]
      exact ⟨_, rfl⟩
  · have h := generateTypeFields_spec H ctx fields fields [] { out := "", calls := [] } rfl
    exact ⟨_, h⟩
  · obtain ⟨st, hst⟩ :=
      generateMessageFields_total H ctx fields fields [] MessageLoop.init rfl
    exact ⟨st, hst⟩
  · intro i f hf
    have hfmem : f ∈ fields := List.getElem?_mem hf
    have hne : g.SizeFrom ≠ f.Name := fun h => hmiss f hfmem h.symm
    refine ⟨fun w => sizeofAnnotations_without H fields g f w hne, ?_,
      generateField_eq H ctx fields i f hf⟩
    intro hmem
    have := (List.mem_filter.mp hmem).2
    exact hne (by simpa using this)

/-- Witness of C17: the sequence `items`, whose size-of relation names the missing field
`missing`, is emitted as a sequence without any annotation. -/
theorem dangling_sizeof_emitted_witness :
    generateField sampleHelpers sampleContext danglingFields 1 = some ["\titems []u32\n"] := by
  have h := (dangling_sizeof_emitted sampleHelpers sampleContext danglingFields 1
    { Name := "items", Type_ := "u32", Length := 0, SizeFrom := "missing" }
    (by decide) (by decide) (by decide) (by decide)).1
  rw [h]
  decide

/-! ## C22: the lines of a comment -/

theorem commentedFrom_inside (body : List Char) (hbody : '\n' ∉ body) (rest : List Char) :
    commentedFrom LinePos.inside (body ++ '\n' :: rest) = commentedFrom LinePos.start rest := by
  induction body with
  | nil => simp [commentedFrom]
  | cons c body ih =>
    have hc : c ≠ '\n' := fun h => hbody (by simp [h])
    have hb : '\n' ∉ body := fun h => hbody (List.mem_cons_of_mem c h)
    simp only [List.cons_append, commentedFrom, hc, if_false]
    exact ih hb

theorem commentedFrom_line (l : String) (hl : CommentLine l) (rest : List Char) :
    commentedFrom LinePos.start (l.data ++ rest) = commentedFrom LinePos.start rest := by
  obtain ⟨body, hd, hbody⟩ := hl
  have e : ('/' :: '/' :: (body ++ ['\n'])) ++ rest = '/' :: '/' :: (body ++ '\n' :: rest) := by
    simp
  rw [hd, e]
  simp only [commentedFrom, beq_self_eq_true, Bool.true_and]
  exact commentedFrom_inside body hbody rest

theorem commentedFrom_join (ls : List String) (hls : ∀ l ∈ ls, CommentLine l)
    (rest : List Char) :
    commentedFrom LinePos.start ((String.join ls).data ++ rest)
      = commentedFrom LinePos.start rest := by
  induction ls with
  | nil => simp [join_nil]
  | cons l ls ih =>
    rw [join_cons, String.data_append, List.append_assoc,
      commentedFrom_line l (hls l (List.mem_cons_self l ls))]
    exact ih (fun x hx => hls x (List.mem_cons_of_mem l hx))

theorem readLines_inputLine :
    ∀ (cs cur : List Char), '\n' ∉ cur → ∀ l ∈ readLines cur cs, InputLine l := by
  intro cs
  induction cs with
  | nil => intro cur _ l hl; simp [readLines] at hl
  | cons c cs ih =>
    intro cur hcur l hl
    by_cases hc : c = '\n'
    · simp only [readLines, hc, if_true, List.mem_cons] at hl
      rcases hl with hl | hl
      · refine ⟨cur.reverse, ?_, by simpa using hcur⟩
        rw [hl]
        simp
      · exact ih [] (by simp) l hl
    · simp only [readLines, hc, if_false] at hl
      refine ih (c :: cur) ?_ l hl
      intro hmem
      rcases List.mem_cons.mp hmem with h | h
      · exact hc h.symm
      · exact hcur h

theorem trimPrefix_inputLine (line p : String) (hl : InputLine line) (hp : '\n' ∉ p.data) :
    InputLine (strings.TrimPrefix line p) ∧ (strings.TrimPrefix line p).data <:+ line.data := by
  unfold strings.TrimPrefix
  by_cases hpre : strings.HasPrefix line p = true
  · simp only [hpre, if_true]
    obtain ⟨body, hd, hbody⟩ := hl
    unfold strings.HasPrefix at hpre
    rw [List.isPrefixOf_iff_prefix] at hpre
    obtain ⟨r, hr⟩ := hpre
    have hdrop : line.data.drop p.data.length = r := by
      rw [← hr]; simp
    rcases List.eq_nil_or_concat r with hnil | ⟨r0, x, hx⟩
    · exfalso
      rw [hnil, List.append_nil, hd] at hr
      exact hp (by rw [hr]; simp)
    · rw [List.concat_eq_append] at hx
      rw [hx, hd, ← List.append_assoc] at hr
      have hinj := List.append_inj' hr rfl
      have hx' : x = '\n' := by simpa using hinj.2
      have hr0 : '\n' ∉ r0 := by
        intro hmem
        apply hbody
        rw [← hinj.1]
        exact List.mem_append_right _ hmem
      refine ⟨⟨r0, ?_, hr0⟩, ?_⟩
      · show line.data.drop p.data.length = r0 ++ ['\n']
        rw [hdrop, hx, hx']
      · show line.data.drop p.data.length <:+ line.data
        exact List.drop_suffix _ _
  · simp only [hpre, if_false]
    exact ⟨hl, List.suffix_refl _⟩

theorem copied_line (line p : String) (hl : InputLine line) (hp : '\n' ∉ p.data) :
    CommentLine ("//\t" ++ strings.TrimPrefix line p) := by
  obtain ⟨⟨body, hd, hbody⟩, _⟩ := trimPrefix_inputLine line p hl hp
  refine ⟨'\t' :: body, ?_, ?_⟩
  · rw [String.data_append, hd]
    rfl
  · intro hmem
    rcases List.mem_cons.mp hmem with h | h
    · exact absurd h (by decide)
    · exact hbody h

theorem bare_line : CommentLine "//\n" :=
  ⟨[], rfl, by simp⟩

theorem indexFrom_ge (sub : List Char) :
    ∀ (cs : List Char) (k : Nat),
      strings.IndexFrom sub cs k = -1 ∨ (k : Int) ≤ strings.IndexFrom sub cs k := by
  intro cs
  induction cs with
  | nil =>
    intro k
    simp only [strings.IndexFrom]
    split_ifs
    · right; exact le_refl _
    · left; rfl
  | cons c cs ih =>
    intro k
    simp only [strings.IndexFrom]
    split_ifs
    · right; exact le_refl _
    · rcases ih (k + c.utf8Size) with h | h
      · left; exact h
      · right
        have : (k : Int) ≤ ((k + c.utf8Size : Nat) : Int) := by exact_mod_cast Nat.le_add_right _ _
        exact le_trans this h

theorem sliceTo_index (sub : List Char) (hsub : sub ≠ []) :
    ∀ (cs : List Char) (k : Nat), strings.IndexFrom sub cs k ≠ -1 →
      ∃ pre suf, cs = pre ++ suf ∧ suf ≠ [] ∧
        sliceToFrom (strings.IndexFrom sub cs k) cs k = pre := by
  intro cs
  induction cs with
  | nil =>
    intro k h
    exfalso
    apply h
    match sub, hsub with
    | a :: as, _ => simp [strings.IndexFrom, List.isPrefixOf]
  | cons c cs ih =>
    intro k h
    by_cases hp : sub.isPrefixOf (c :: cs) = true
    · refine ⟨[], c :: cs, rfl, by simp, ?_⟩
      simp [strings.IndexFrom, hp, sliceToFrom]
    · have hidx : strings.IndexFrom sub (c :: cs) k
          = strings.IndexFrom sub cs (k + c.utf8Size) := by
        simp only [strings.IndexFrom, hp, Bool.false_eq_true, if_false]
      rw [hidx] at h ⊢
      obtain ⟨pre, suf, hcs, hsuf, hslice⟩ := ih (k + c.utf8Size) h
      have hge : ((k + c.utf8Size : Nat) : Int) ≤ strings.IndexFrom sub cs (k + c.utf8Size) := by
        rcases indexFrom_ge sub cs (k + c.utf8Size) with h' | h'
        · exact absurd h' h
        · exact h'
      have hpos : 0 < c.utf8Size := Char.utf8Size_pos c
      have hlt : (k : Int) < strings.IndexFrom sub cs (k + c.utf8Size) := by
        have : (k : Int) < ((k + c.utf8Size : Nat) : Int) := by exact_mod_cast Nat.lt_add_of_pos_right hpos
        exact lt_of_lt_of_le this hge
      refine ⟨c :: pre, suf, by rw [hcs]; rfl, hsuf, ?_⟩
      simp only [sliceToFrom, hlt, if_true, hslice]

theorem sliceTo_no_newline (line objTitle : String) (hl : InputLine line)
    (hT : objTitle.data ≠ []) (hidx : strings.Index line objTitle ≠ -1) :
    '\n' ∉ (sliceTo line (strings.Index line objTitle)).data := by
  obtain ⟨body, hd, hbody⟩ := hl
  obtain ⟨pre, suf, hcs, hsuf, hslice⟩ := sliceTo_index objTitle.data hT line.data 0 hidx
  have hdata : (sliceTo line (strings.Index line objTitle)).data = pre := hslice
  rw [hdata]
  rcases List.eq_nil_or_concat suf with hnil | ⟨s0, x, hx⟩
  · exact absurd hnil hsuf
  · rw [List.concat_eq_append] at hx
    rw [hd, hx, ← List.append_assoc] at hcs
    have hinj := List.append_inj' hcs rfl
    intro hmem
    apply hbody
    rw [hinj.1]
    exact List.mem_append_left _ hmem

theorem generateCommentLoop_lines (objTitle : String) (mapType : Bool)
    (hT : objTitle.data ≠ []) :
    ∀ (lines : List String) (st : CommentLoop), (∀ l ∈ lines, InputLine l) →
      '\n' ∉ st.trimIndent.data →
      ∃ mid : List String,
        generateCommentLoop objTitle mapType lines st = st.out ++ String.join mid ∧
        ∀ l ∈ mid, CommentLine l ∧
          (l = "//\n" ∨
            ∃ line ∈ lines, ∃ t : String, l = "//\t" ++ t ∧ t.data <:+ line.data) := by
  intro lines
  induction lines with
  | nil =>
    intro st _ _
    exact ⟨[], by simp [generateCommentLoop, join_nil], by simp⟩
  | cons line rest ih =>
    intro st hlines htrim
    have hline : InputLine line := hlines line (List.mem_cons_self _ _)
    have hrest : ∀ l ∈ rest, InputLine l := fun l hl => hlines l (List.mem_cons_of_mem _ hl)
    have lift : ∀ mid : List String,
        (∀ l ∈ mid, CommentLine l ∧
          (l = "//\n" ∨ ∃ ln ∈ rest, ∃ t : String, l = "//\t" ++ t ∧ t.data <:+ ln.data)) →
        ∀ l ∈ mid, CommentLine l ∧
          (l = "//\n" ∨
            ∃ ln ∈ line :: rest, ∃ t : String, l = "//\t" ++ t ∧ t.data <:+ ln.data) := by
      intro mid hmid l hl
      obtain ⟨h1, h2⟩ := hmid l hl
      refine ⟨h1, ?_⟩
      rcases h2 with h2 | ⟨ln, hln, t, ht⟩
      · exact Or.inl h2
      · exact Or.inr ⟨ln, List.mem_cons_of_mem _ hln, t, ht⟩
    have hcopy : ∀ p : String, '\n' ∉ p.data →
        CommentLine ("//\t" ++ strings.TrimPrefix line p) ∧
          ("//\t" ++ strings.TrimPrefix line p = "//\n" ∨
            ∃ ln ∈ line :: rest, ∃ t : String,
              "//\t" ++ strings.TrimPrefix line p = "//\t" ++ t ∧ t.data <:+ ln.data) := by
      intro p hp
      exact ⟨copied_line line p hline hp,
        Or.inr ⟨line, List.mem_cons_self _ _, _, rfl, (trimPrefix_inputLine line p hline hp).2⟩⟩
    have hbare : CommentLine "//\n" ∧
        ("//\n" = "//\n" ∨
          ∃ ln ∈ line :: rest, ∃ t : String, "//\n" = "//\t" ++ t ∧ t.data <:+ ln.data) :=
      ⟨bare_line, Or.inl rfl⟩
    obtain ⟨found, ind, trim, out⟩ := st
    simp only at htrim
    cases found with
    | true =>
      simp only [generateCommentLoop, Bool.not_true, Bool.false_eq_true, if_false,
        Bool.true_and]
      by_cases h1 : strings.IndexFunc line (fun r => !unicode.IsSpace r) < ind
      · simp only [h1, if_true]
        exact ⟨[], by simp [join_nil], by simp⟩
      · simp only [h1, if_false]
        by_cases h2 : (mapType &&
            decide (strings.IndexFunc line (fun r => !unicode.IsSpace r) ≤ ind)) = true
        · simp only [h2, if_true]
          refine ⟨["//\t" ++ strings.TrimPrefix line trim], ?_, ?_⟩
          · simp only [join_cons, join_nil, String.append_assoc, String.append_empty]
          · intro l hl
            rw [List.mem_singleton] at hl
            rw [hl]
            exact hcopy _ htrim
        · simp only [h2, Bool.false_eq_true, if_false]
          obtain ⟨mid, hm, hprop⟩ := ih
            { objFound := true, indent := ind, trimIndent := trim,
              out := out ++ "//\t" ++ strings.TrimPrefix line trim }
            hrest htrim
          refine ⟨("//\t" ++ strings.TrimPrefix line trim) :: mid, ?_, ?_⟩
          · rw [hm]
            simp only [join_cons, String.append_assoc]
          · intro l hl
            rcases List.mem_cons.mp hl with hl | hl
            · rw [hl]; exact hcopy _ htrim
            · exact lift mid hprop l hl
    | false =>
      simp only [generateCommentLoop, Bool.not_false, if_true]
      by_cases hidx : strings.Index line objTitle = -1
      · simp only [hidx, if_true]
        obtain ⟨mid, hm, hprop⟩ := ih
          { objFound := false, indent := -1, trimIndent := trim, out := out } hrest htrim
        exact ⟨mid, hm, lift mid hprop⟩
      · simp only [hidx, if_false]
        have htrim' := sliceTo_no_newline line objTitle hline hT hidx
        by_cases hf : strings.TrimSpace line = objTitle
        · obtain ⟨mid, hm, hprop⟩ := ih
            { objFound := true, indent := strings.Index line objTitle,
              trimIndent := sliceTo line (strings.Index line objTitle),
              out := out ++ "//\n" ++ "//\t"
                ++ strings.TrimPrefix line (sliceTo line (strings.Index line objTitle)) }
            hrest htrim'
          refine ⟨"//\n" ::
            ("//\t" ++ strings.TrimPrefix line (sliceTo line (strings.Index line objTitle)))
              :: mid, ?_, ?_⟩
          · simp only [hf, decide_True, if_true]
            rw [hm]
            simp only [join_cons, String.append_assoc]
          · intro l hl
            rcases List.mem_cons.mp hl with hl | hl
            · rw [hl]; exact hbare
            · rcases List.mem_cons.mp hl with hl | hl
              · rw [hl]; exact hcopy _ htrim'
              · exact lift mid hprop l hl
        · obtain ⟨mid, hm, hprop⟩ := ih
            { objFound := false, indent := strings.Index line objTitle,
              trimIndent := sliceTo line (strings.Index line objTitle),
              out := out ++ "//\t"
                ++ strings.TrimPrefix line (sliceTo line (strings.Index line objTitle)) }
            hrest htrim'
          refine ⟨("//\t" ++ strings.TrimPrefix line
            (sliceTo line (strings.Index line objTitle))) :: mid, ?_, ?_⟩
          · simp only [hf, decide_False, Bool.false_eq_true, if_false]
            rw [hm]
            simp only [join_cons, String.append_assoc]
          · intro l hl
            rcases List.mem_cons.mp hl with hl | hl
            · rw [hl]; exact hcopy _ htrim'
            · exact lift mid hprop l hl

theorem commentTitle_line (goName vppName objKind : String) (h1 : '\n' ∉ goName.data)
    (h2 : '\n' ∉ vppName.data) (h3 : '\n' ∉ objKind.data) :
    CommentLine (commentTitle goName vppName objKind) := by
  unfold commentTitle
  by_cases hk : objKind = "service"
  · simp only [hk, if_true]
    refine ⟨' ' :: (goName.data ++ " represents VPP binary API services:".data), ?_, ?_⟩
    · simp [String.data_append]
    · simp [h1]
  · simp only [hk, if_false]
    refine ⟨' ' :: (goName.data ++ (" represents VPP binary API ".data ++ (objKind.data
      ++ (" \x27".data ++ (vppName.data ++ "\x27:".data))))), ?_, ?_⟩
    · simp [String.data_append]
    · simp [h1, h2, h3]

theorem objTitle_nonempty (vppName : String) (mapType : Bool) :
    (if mapType = true then "\"" ++ vppName ++ "\": \x7b" else "\"" ++ vppName ++ "\",").data
      ≠ [] := by
  cases mapType <;> simp [String.data_append]

/-- C22 as stated fails: for the object name `a`, newline, `b` the title written by
`generateComment` spans two lines, and the second one, which holds the end of the name,
does not start with `//`. -/
theorem generateComment_name_escapes :
    generateComment sampleContext "T" "a\nb" "type"
      = "// T represents VPP binary API type \x27a\n" ++ "b\x27:\n" ++ "//\n" ∧
    allLinesCommented (generateComment sampleContext "T" "a\nb" "type") = false := by
  decide

/-- C22 (amended): `generateComment` is total, and for every schema text and every object
name and kind its text is the title, then lines that each start with `//`, and last a
bare `//` line. Each line between the title and the last line is a bare `//` or is
`//`, a tab and the end part of one line of the schema input, up to and including the
newline of that input line, with no other newline. When neither the emitted name, nor the
schema name, nor the kind contains a newline, the title is one line starting with `//`
and every line of the whole text starts with `//`. -/
theorem generateComment_lines (ctx : context) (goName vppName objKind : String) :
    ∃ mid : List String,
      generateComment ctx goName vppName objKind
        = commentTitle goName vppName objKind ++ String.join mid ++ "//\n" ∧
      (∀ l ∈ mid, CommentLine l ∧
        (l = "//\n" ∨
          ∃ line ∈ readLines [] ctx.inputData.data, ∃ t : String,
            InputLine line ∧ l = "//\t" ++ t ∧ t.data <:+ line.data)) ∧
      allLinesCommented (String.join mid ++ "//\n") = true ∧
      ('\n' ∉ goName.data → '\n' ∉ vppName.data → '\n' ∉ objKind.data →
        CommentLine (commentTitle goName vppName objKind) ∧
        allLinesCommented (generateComment ctx goName vppName objKind) = true) := by
  have hin : ∀ l ∈ readLines [] ctx.inputData.data, InputLine l :=
    readLines_inputLine ctx.inputData.data [] (by simp)
  obtain ⟨mid, hm, hprop⟩ := generateCommentLoop_lines
    (if decide (objKind = "alias" ∨ objKind = "service") = true
      then "\"" ++ vppName ++ "\": \x7b" else "\"" ++ vppName ++ "\",")
    (decide (objKind = "alias" ∨ objKind = "service"))
    (objTitle_nonempty vppName _)
    (readLines [] ctx.inputData.data)
    { objFound := false, indent := 0, trimIndent := "", out := "" }
    hin (by simp)
  have hmid : ∀ l ∈ mid, CommentLine l := fun l hl => (hprop l hl).1
  have htail : allLinesCommented (String.join mid ++ "//\n") = true := by
    unfold allLinesCommented
    rw [String.data_append, commentedFrom_join mid hmid]
    decide
  have heq : generateComment ctx goName vppName objKind
      = commentTitle goName vppName objKind ++ String.join mid ++ "//\n" := by
    simp only [generateComment, commentTitle, hm, String.empty_append]
  refine ⟨mid, heq, ?_, htail, ?_⟩
  · intro l hl
    obtain ⟨hc, hsrc⟩ := hprop l hl
    refine ⟨hc, ?_⟩
    rcases hsrc with hsrc | ⟨line, hline, t, ht, hsuf⟩
    · exact Or.inl hsrc
    · exact Or.inr ⟨line, hline, t, hin line hline, ht, hsuf⟩
  · intro h1 h2 h3
    have htitle := commentTitle_line goName vppName objKind h1 h2 h3
    refine ⟨htitle, ?_⟩
    rw [heq]
    unfold allLinesCommented
    rw [String.append_assoc, String.data_append, commentedFrom_line _ htitle]
    exact htail

/-- Witness of C22: for the sample schema and the type `foo`, emitted as `Foo`, every
line of the comment starts with `//`. -/
theorem generateComment_lines_witness :
    allLinesCommented
      (generateComment { sampleContext with inputData := sampleSchema } "Foo" "foo" "type")
      = true := by
  obtain ⟨_, _, _, _, h⟩ :=
    generateComment_lines { sampleContext with inputData := sampleSchema } "Foo" "foo" "type"
  exact (h (by decide) (by decide) (by decide)).2

end Generator

namespace Vppcalls

/-! ## The copy of the socket path -/

theorem copyPath_isSome :
    ∀ (l : List Nat) (i : Nat) (buf : List Nat), i + l.length ≤ buf.length →
      ∃ b, copyPath l i buf = some b ∧ b.length = buf.length := by
  intro l
  induction l with
  | nil => intro i buf _; exact ⟨buf, rfl, rfl⟩
  | cons c l ih =>
    intro i buf h
    simp only [List.length_cons] at h
    have hi : i < buf.length := by omega
    obtain ⟨b, hb, hlen⟩ := ih (i + 1) (buf.set i c) (by simp; omega)
    refine ⟨b, ?_, by simpa using hlen⟩
    simp only [copyPath, hi, if_true, hb]

theorem registerPuntWithSocket_eq (h : PuntVppHandler) (K : L4Values) (punt : Punt)
    (isIPv4 : Bool) (sent : List Request) (pathByte : List Nat)
    (hcopy : copyPath (bytesOf punt.SocketPath) 0 (List.replicate 108 0) = some pathByte) :
    registerPuntWithSocket h K punt isIPv4 sent
      = some (sent ++ [registerRequest K punt isIPv4 pathByte],
          h.callsChannel sent (registerRequest K punt isIPv4 pathByte)) := by
  simp only [registerPuntWithSocket, hcopy, registerRequest]

/-! ## C16: DeregisterPuntSocket -/

set_option maxRecDepth 20000 in
/-- C16 fails on the code: for an IPv4 configuration `DeregisterPuntSocket` sends one
`PuntSocketRegister` request and no `PuntSocketDeregister` request, where the function
`unregisterPuntWithSocketIPv4`, which it does not call, sends the deregister request. -/
theorem DeregisterPuntSocket_sends_register :
    DeregisterPuntSocket sampleHandler sampleL4Values samplePunt []
      = some ([Request.register
          { HeaderVersion := 1, IsIP4 := 1, L4Protocol := 17, L4Port := 9000,
            Pathname := [47, 116, 109, 112, 47, 112] ++ List.replicate 102 0 }], none) ∧
    unregisterPuntWithSocketIPv4 sampleHandler sampleL4Values samplePunt []
      = some ([Request.deregister { IsIP4 := 1, L4Protocol := 17, L4Port := 9000 }], none) := by
  decide

theorem DeregisterPuntSocket_eq_RegisterPuntSocket (h : PuntVppHandler) (K : L4Values)
    (puntCfg : Punt) (sent : List Request) :
    DeregisterPuntSocket h K puntCfg sent = RegisterPuntSocket h K puntCfg sent := rfl

/-! ## C18: RegisterPuntSocket -/

set_option maxRecDepth 20000 in
/-- C18 as stated fails: for a configuration whose socket path is 109 bytes long the
copy loop of `registerPuntWithSocket` panics, so `RegisterPuntSocket` sends no request
at all. -/
theorem RegisterPuntSocket_long_path_sends_nothing :
    (bytesOf longPathPunt.SocketPath).length = 109 ∧
    RegisterPuntSocket sampleHandler sampleL4Values longPathPunt [] = none := by
  decide

/-- C18 (amended): for a configuration whose socket path is at most 108 bytes long,
`RegisterPuntSocket` sends exactly one register request, with `IsIP4 = 1`, when the L3
protocol is IPv4; exactly one, with `IsIP4 = 0`, when it is IPv6; and for every other L3
value it sends the IPv4 request first and, when that request is answered without error,
the IPv6 request after it, returning the answer of the IPv6 request; when the IPv4
request is answered with an error, that error is returned and the IPv6 request is not
sent. -/
theorem RegisterPuntSocket_dispatch (h : PuntVppHandler) (K : L4Values) (puntCfg : Punt)
    (sent : List Request) (hpath : (bytesOf puntCfg.SocketPath).length ≤ 108) :
    ∃ r4 r6 : PuntSocketRegister,
      r4.IsIP4 = 1 ∧ r6.IsIP4 = 0 ∧
      (puntCfg.L3Protocol = L3Protocol.L3Protocol_IPv4 →
        RegisterPuntSocket h K puntCfg sent
          = some (sent ++ [Request.register r4], h.callsChannel sent (Request.register r4))) ∧
      (puntCfg.L3Protocol = L3Protocol.L3Protocol_IPv6 →
        RegisterPuntSocket h K puntCfg sent
          = some (sent ++ [Request.register r6], h.callsChannel sent (Request.register r6))) ∧
      (puntCfg.L3Protocol ≠ L3Protocol.L3Protocol_IPv4 →
        puntCfg.L3Protocol ≠ L3Protocol.L3Protocol_IPv6 →
        (∀ err, h.callsChannel sent (Request.register r4) = some err →
          RegisterPuntSocket h K puntCfg sent
            = some (sent ++ [Request.register r4], some err)) ∧
        (h.callsChannel sent (Request.register r4) = none →
          RegisterPuntSocket h K puntCfg sent
            = some (sent ++ [Request.register r4, Request.register r6],
                h.callsChannel (sent ++ [Request.register r4]) (Request.register r6)))) := by
  obtain ⟨pathByte, hcopy, _⟩ :=
    copyPath_isSome (bytesOf puntCfg.SocketPath) 0 (List.replicate 108 0) (by simpa using hpath)
  have h4 := fun s => registerPuntWithSocket_eq h K puntCfg true s pathByte hcopy
  have h6 := fun s => registerPuntWithSocket_eq h K puntCfg false s pathByte hcopy
  simp only [registerRequest] at h4 h6
  refine ⟨{ HeaderVersion := 1, IsIP4 := boolToUint true,
              L4Protocol := resolveL4Proto K puntCfg.L4Protocol,
              L4Port := puntCfg.Port % 65536, Pathname := pathByte },
            { HeaderVersion := 1, IsIP4 := boolToUint false,
              L4Protocol := resolveL4Proto K puntCfg.L4Protocol,
              L4Port := puntCfg.Port % 65536, Pathname := pathByte },
            rfl, rfl, ?_, ?_, ?_⟩
  · intro hl3
    simp only [RegisterPuntSocket, hl3, if_true, registerPuntWithSocketIPv4, h4]
  · intro hl3
    simp only [RegisterPuntSocket, hl3, reduceCtorEq, if_false, if_true,
      registerPuntWithSocketIPv6, h6]
  · intro hn4 hn6
    constructor
    · intro err herr
      simp only [RegisterPuntSocket, hn4, hn6, if_false, registerPuntWithSocketIPv4, h4, herr]
    · intro hok
      simp only [RegisterPuntSocket, hn4, hn6, if_false, registerPuntWithSocketIPv4,
        registerPuntWithSocketIPv6, h4, h6, hok, List.append_assoc, List.singleton_append]

/-- Witness of C18: the sample configuration, IPv4 with a short socket path, sends one
register request with `IsIP4 = 1`. -/
theorem RegisterPuntSocket_dispatch_witness :
    ∃ r4 : PuntSocketRegister, r4.IsIP4 = 1 ∧
      RegisterPuntSocket sampleHandler sampleL4Values samplePunt []
        = some ([Request.register r4], none) := by
  obtain ⟨r4, _, h4, _, hv4, _⟩ :=
    RegisterPuntSocket_dispatch sampleHandler sampleL4Values samplePunt [] (by decide)
  exact ⟨r4, h4, by simpa [sampleHandler] using hv4 rfl⟩

/-! ## C21: the path name of the register request -/

theorem copyPath_exact :
    ∀ (l done tail : List Nat), l.length ≤ tail.length →
      copyPath l done.length (done ++ tail) = some (done ++ l ++ tail.drop l.length) := by
  intro l
  induction l with
  | nil => intro done tail _; simp [copyPath]
  | cons c l ih =>
    intro done tail h
    match tail, h with
    | [], h => simp at h
    | t :: tail, h =>
      simp only [List.length_cons, Nat.add_le_add_iff_right] at h
      have hlt : done.length < (done ++ t :: tail).length := by simp
      have hset : (done ++ t :: tail).set done.length c = (done ++ [c]) ++ tail := by
        rw [List.set_append_right _ _ (le_refl _)]
        simp
      have hlen : (done ++ [c]).length = done.length + 1 := by simp
      simp only [copyPath, hlt, if_true, hset]
      rw [← hlen, ih (done ++ [c]) tail h]
      simp

theorem copyPath_none :
    ∀ (l : List Nat) (i : Nat) (buf : List Nat), i ≤ buf.length → buf.length < i + l.length →
      copyPath l i buf = none := by
  intro l
  induction l with
  | nil => intro i buf h1 h2; simp at h2; omega
  | cons c l ih =>
    intro i buf h1 h2
    simp only [List.length_cons] at h2
    by_cases hi : i < buf.length
    · simp only [copyPath, hi, if_true]
      exact ih (i + 1) (buf.set i c) (by simp; omega) (by simp; omega)
    · simp only [copyPath, hi, if_false]

/-- C21: when the socket path is at most 108 bytes long, the copy loop of
`registerPuntWithSocket` writes inside the buffer only (it ends without panic) and the
request sent has a `Pathname` of exactly 108 bytes: the bytes of the socket path followed
by zeros. When the socket path is longer than 108 bytes, the copy loop indexes past the
end of the buffer: it panics, and so does `registerPuntWithSocket`. -/
theorem registerPuntWithSocket_pathname (h : PuntVppHandler) (K : L4Values) (punt : Punt)
    (isIPv4 : Bool) (sent : List Request) :
    ((bytesOf punt.SocketPath).length ≤ 108 →
      ∃ req : PuntSocketRegister,
        copyPath (bytesOf punt.SocketPath) 0 (List.replicate 108 0) = some req.Pathname ∧
        registerPuntWithSocket h K punt isIPv4 sent
          = some (sent ++ [Request.register req],
              h.callsChannel sent (Request.register req)) ∧
        req.Pathname.length = 108 ∧
        req.Pathname.take (bytesOf punt.SocketPath).length = bytesOf punt.SocketPath ∧
        req.Pathname.drop (bytesOf punt.SocketPath).length
          = List.replicate (108 - (bytesOf punt.SocketPath).length) 0) ∧
    (108 < (bytesOf punt.SocketPath).length →
      copyPath (bytesOf punt.SocketPath) 0 (List.replicate 108 0) = none ∧
      registerPuntWithSocket h K punt isIPv4 sent = none) := by
  constructor
  · intro hlen
    have hcopy : copyPath (bytesOf punt.SocketPath) 0 (List.replicate 108 0)
        = some (bytesOf punt.SocketPath
            ++ List.replicate (108 - (bytesOf punt.SocketPath).length) 0) := by
      have := copyPath_exact (bytesOf punt.SocketPath) [] (List.replicate 108 0)
        (by rw [List.length_replicate]; exact hlen)
      rw [List.drop_replicate] at this
      exact this
    refine ⟨{ HeaderVersion := 1, IsIP4 := boolToUint isIPv4,
              L4Protocol := resolveL4Proto K punt.L4Protocol,
              L4Port := punt.Port % 65536,
              Pathname := bytesOf punt.SocketPath
                ++ List.replicate (108 - (bytesOf punt.SocketPath).length) 0 },
            hcopy, ?_, ?_, ?_, ?_⟩
    · simp only [registerPuntWithSocket, hcopy]
    · simp only [List.length_append, List.length_replicate]
      omega
    · simp
    · simp
  · intro hlen
    have hcopy : copyPath (bytesOf punt.SocketPath) 0 (List.replicate 108 0) = none :=
      copyPath_none _ 0 _ (Nat.zero_le _) (by rw [List.length_replicate]; omega)
    exact ⟨hcopy, by simp only [registerPuntWithSocket, hcopy]⟩

set_option maxRecDepth 20000 in
/-- Witness of C21: the 6 bytes of the sample path `/tmp/p` are followed by 102 zeros,
and the path of 109 bytes makes `registerPuntWithSocket` panic. -/
theorem registerPuntWithSocket_pathname_witness :
    (∃ req : PuntSocketRegister,
      registerPuntWithSocket sampleHandler sampleL4Values samplePunt true []
        = some ([Request.register req], none) ∧
      req.Pathname.length = 108 ∧
      req.Pathname.take 6 = [47, 116, 109, 112, 47, 112] ∧
      req.Pathname.drop 6 = List.replicate 102 0) ∧
    registerPuntWithSocket sampleHandler sampleL4Values longPathPunt true [] = none := by
  have hs := (registerPuntWithSocket_pathname sampleHandler sampleL4Values samplePunt true []).1
    (by decide)
  have hl := (registerPuntWithSocket_pathname sampleHandler sampleL4Values longPathPunt true
    []).2 (by decide)
  obtain ⟨req, _, h1, h2, h3, h4⟩ := hs
  have hb : bytesOf samplePunt.SocketPath = [47, 116, 109, 112, 47, 112] := by decide
  rw [hb] at h3 h4
  exact ⟨⟨req, by simpa [sampleHandler] using h1, h2, by simpa using h3, by simpa using h4⟩,
    hl.2⟩

end Vppcalls
